import Mathlib

/-!
# Conflux log-polling connector (`blockchain/cfx.go`)

A shallow embedding of the `cfxManager` connector and a verification of its
cursor logic, its filter-query encoder and its request builders.

Conventions of the embedding

* A Go slice is `Slice α = Option (List α)`; `none` is the `nil` slice.
* A Go `string` is a Lean `String`.
* A `[]byte` that carries JSON text is represented by the document it spells
  (`JValue`); a `[]byte` payload received from the node is a `Payload`,
  `none` standing for bytes that are not syntactically valid JSON.
* `*big.Int` values are natural numbers: `hexutil.DecodeBig` only produces
  non-negative numbers and the connector only adds one to them.
* The methods of `cfxManager` have a value receiver holding a pointer `fq`;
  a method that writes through the pointer returns the manager it leaves
  behind next to its Go results.
-/

namespace blockchain

/-! ## Go slices -/

/-- A Go slice: `none` is `nil`, `some xs` a non-nil slice with elements `xs`. -/
abbrev Slice (α : Type) := Option (List α)

/-- The elements of a slice (`nil` has none). -/
def Slice.toList {α : Type} : Slice α → List α
  | none => []
  | some xs => xs

/-- Go `len(s)`. -/
def Slice.len {α : Type} (s : Slice α) : Nat := s.toList.length

/-- Go `append(s, a)`: the result is never `nil`. -/
def Slice.append {α : Type} (s : Slice α) (a : α) : Slice α := some (s.toList ++ [a])

/-! ## JSON documents (`encoding/json`) -/

/-- A JSON document. A number keeps its literal text. -/
inductive JValue where
  | null : JValue
  | bool (b : Bool) : JValue
  | num (lit : String) : JValue
  | str (s : String) : JValue
  | arr (xs : List JValue) : JValue
  | obj (kvs : List (String × JValue)) : JValue

/-- A byte payload handed to `json.Unmarshal`: `none` when the bytes are not
syntactically valid JSON, otherwise the document they spell. -/
abbrev Payload := Option JValue

/-- A `json.RawMessage`: `none` is the empty (zero-length) message, `some v`
the raw text of the document `v`. -/
abbrev RawMessage := Option JValue

/-- Case folding of one rune of an object key, as `encoding/json` does when it
matches keys against struct fields: ASCII letters are upper-cased, and the two
non-ASCII runes whose fold orbit contains an ASCII letter (U+017F, U+212A) go to
that letter. Every other rune is left alone, which is exact for matching
against the ASCII field names used here. -/
def foldRune (c : Char) : Char :=
  if c = Char.ofNat 0x17F then 'S'
  else if c = Char.ofNat 0x212A then 'K'
  else c.toUpper

/-- The folded form of an object key. -/
def foldName (key : String) : String := String.mk (key.data.map foldRune)

/-- Decoding a JSON value into a Go `string` variable holding `old`: a JSON
string replaces it, `null` leaves it as it is, anything else is an
`UnmarshalTypeError`. -/
def decodeString (old : String) : JValue → Except String String
  | .str s => .ok s
  | .null => .ok old
  | _ => .error "json: cannot unmarshal value into Go value of type string"

/-- Decoding the elements of a JSON array into a `[]string` whose backing array
holds `old`: element `i` is decoded into the element that the backing array
holds at index `i`, or into the zero value when the array is shorter (a grown
slice is zero beyond its old capacity). -/
def decodeStringElems : List String → List JValue → Except String (List String)
  | _, [] => .ok []
  | old, v :: vs =>
    match decodeString (old.headD "") v with
    | .error err => .error err
    | .ok s =>
      match decodeStringElems old.tail vs with
      | .error err => .error err
      | .ok rest => .ok (s :: rest)

/-- Decoding a JSON value into a `[]string` variable. The variable is the slice
`old` together with `spare`, the elements that its backing array still holds
behind its length (left there when an earlier decoding made it shorter;
capacity that was never written is zero and is not listed). `null` makes the
slice `nil`; an empty array makes it a new empty slice; any other array is
decoded element by element over the backing array, `encoding/json` extending
the length over the spare elements without clearing them, and what the array
holds behind the new length stays as spare; anything else is an
`UnmarshalTypeError`. -/
def decodeStringSlice (old : Slice String) (spare : List String) :
    JValue → Except String (Slice String × List String)
  | .null => .ok (none, [])
  | .arr [] => .ok (some [], [])
  | .arr (x :: xs) =>
    match decodeStringElems (old.toList ++ spare) (x :: xs) with
    | .error err => .error err
    | .ok ss => .ok (some ss, (old.toList ++ spare).drop ss.length)
  | _ => .error "json: cannot unmarshal value into Go value of type []string"

/-- The JSON encoding of a `[]string`: `null` for `nil`, an array of strings otherwise. -/
def marshalStringSlice : Slice String → JValue
  | none => .null
  | some ss => .arr (ss.map JValue.str)

/-! ## `hexutil` (go-ethereum) -/

namespace hexutil

/-- The value of one hex digit (`decodeNibble`), by the byte value `in` of the
character: `'0'..'9'` are 48..57, `'A'..'F'` are 65..70, `'a'..'f'` are 97..102;
`none` is `badNibble`. -/
def decodeNibble (c : Char) : Option Nat :=
  let b := c.toNat
  if 48 ≤ b ∧ b ≤ 57 then some (b - 48)
  else if 65 ≤ b ∧ b ≤ 70 then some (b - 65 + 10)
  else if 97 ≤ b ∧ b ≤ 102 then some (b - 97 + 10)
  else none

/-- Go `has0xPrefix`: the input starts with `0x` or `0X`. -/
def has0xPrefix (input : List Char) : Bool :=
  match input with
  | c0 :: c1 :: _ => decide (c0 = '0' ∧ (c1 = 'x' ∨ c1 = 'X'))
  | _ => false

/-- Go `checkNumber`: the digits after the `0x` marker, or `none` for an
empty string, a missing marker, an empty number or a leading zero digit. -/
def checkNumber (input : String) : Option (List Char) :=
  if input.data.length = 0 then none
  else if has0xPrefix input.data = false then none
  else
    let raw := input.data.drop 2
    if raw.length = 0 then none
    else if raw.length > 1 ∧ raw.head? = some '0' then none
    else some raw

/-- The number spelled by a run of hex digits read left to right, starting
from the accumulator `acc`; `none` when a character is not a hex digit. -/
def hexValue : List Char → Nat → Option Nat
  | [], acc => some acc
  | c :: cs, acc =>
    match decodeNibble c with
    | none => none
    | some d => hexValue cs (acc * 16 + d)

/-- Go `hexutil.DecodeBig`: decodes a hex quantity with `0x` marker; numbers
of more than 64 hex digits (256 bits) are refused. `none` is a non-nil error. -/
def DecodeBig (input : String) : Option Nat :=
  match checkNumber input with
  | none => none
  | some raw => if raw.length > 64 then none else hexValue raw 0

/-- The lower-case hex digit of a value below sixteen. -/
def hexChar (d : Nat) : Char :=
  if d < 10 then Char.ofNat (48 + d) else Char.ofNat (87 + d)

/-- Digits of `n` in base sixteen, most significant first, put in front of `acc`. -/
def hexDigitsAux : Nat → Nat → List Char → List Char
  | 0, _, acc => acc
  | fuel + 1, n, acc =>
    if n < 16 then hexChar n :: acc
    else hexDigitsAux fuel (n / 16) (hexChar (n % 16) :: acc)

/-- Go `(*big.Int).Text(16)` for a non-negative number. -/
def hexDigits (n : Nat) : List Char := hexDigitsAux (n + 1) n []

/-- Go `hexutil.EncodeBig` for a non-negative number: `0x0` for zero, else
`0x` followed by the hex digits without leading zeros. -/
def EncodeBig (n : Nat) : String :=
  if n = 0 then "0x0" else String.mk ('0' :: 'x' :: hexDigits n)

/-- Go `hexutil.Encode`: `0x` followed by two lower-case hex digits per byte. -/
def Encode (bs : List (Fin 256)) : String :=
  String.mk ('0' :: 'x' :: bs.flatMap (fun b => [hexChar (b.val / 16), hexChar (b.val % 16)]))

end hexutil

/-! ## Types declared outside `cfx.go` -/

/-- Modelled from the spec: `subscriber.Type`, the transport mode of a
connector, is declared in the `subscriber` package. It is an integer
enumeration; the connector only compares it with `subscriber.RPC`
(the polling-RPC mode). -/
abbrev SubscriberType := Int

/-- Modelled from the spec: the polling-RPC transport mode `subscriber.RPC`. -/
def subscriber.RPC : SubscriberType := 1

/-- Modelled from the spec: `subscriber.Event`, an opaque normalized event; it
is the byte encoding of one JSON document. -/
abbrev Event := JValue

/-- A `common.Address` (go-ethereum): a byte array. Its fixed length of 20 is
not tracked, no operation of the connector depends on it. -/
structure Address where
  bytes : List (Fin 256)
  deriving DecidableEq

/-- A `common.Hash` (go-ethereum): a byte array. Its fixed length of 32 is
not tracked, no operation of the connector depends on it. -/
structure Hash where
  bytes : List (Fin 256)
  deriving DecidableEq

/-- Modelled from the spec: `jsonrpcMessage`, the JSON-RPC 2.0 envelope shared
by the connectors, is declared in another file of the package: a version
string (`jsonrpc`), and the optional members `id`, `method`, `params`,
`error` and `result`, the raw members kept as `json.RawMessage`. -/
structure jsonrpcMessage where
  Version : String
  ID : RawMessage
  Method : String
  Params : RawMessage
  Error : Option JValue
  Result : RawMessage

/-- The zero value of `jsonrpcMessage` (`var msg jsonrpcMessage`). -/
def jsonrpcMessage.zero : jsonrpcMessage :=
  { Version := "", ID := none, Method := "", Params := none, Error := none, Result := none }

/-- Decoding one member `key: v` of a JSON object into a `jsonrpcMessage`:
the member is matched to a field by its folded name, members that match no
field are ignored. -/
def setMessageField (msg : jsonrpcMessage) (key : String) (v : JValue) :
    Except String jsonrpcMessage :=
  let k := foldName key
  if k = "JSONRPC" then
    match decodeString msg.Version v with
    | .error err => .error err
    | .ok s => .ok { msg with Version := s }
  else if k = "ID" then .ok { msg with ID := some v }
  else if k = "METHOD" then
    match decodeString msg.Method v with
    | .error err => .error err
    | .ok s => .ok { msg with Method := s }
  else if k = "PARAMS" then .ok { msg with Params := some v }
  else if k = "ERROR" then
    match v with
    | .null => .ok { msg with Error := none }
    | _ => .ok { msg with Error := some v }
  else if k = "RESULT" then .ok { msg with Result := some v }
  else .ok msg

/-- Decoding the members of a JSON object into a `jsonrpcMessage`, in
document order. -/
def setMessageFields : jsonrpcMessage → List (String × JValue) → Except String jsonrpcMessage
  | msg, [] => .ok msg
  | msg, kv :: kvs =>
    match setMessageField msg kv.1 kv.2 with
    | .error err => .error err
    | .ok msg1 => setMessageFields msg1 kvs

/-- Go `json.Unmarshal(data, &msg)` for a fresh `jsonrpcMessage`: bytes that
are not JSON fail, `null` leaves the zero value, an object is decoded member
by member, any other document is an `UnmarshalTypeError`. -/
def unmarshalMessage : Payload → Except String jsonrpcMessage
  | none => .error "invalid character"
  | some .null => .ok jsonrpcMessage.zero
  | some (.obj kvs) => setMessageFields jsonrpcMessage.zero kvs
  | some _ => .error "json: cannot unmarshal value into Go value of type blockchain.jsonrpcMessage"

/-- Go `json.Unmarshal(raw, &res)` for a fresh `string`: an empty message
fails (unexpected end of input). -/
def unmarshalString : RawMessage → Except String String
  | none => .error "unexpected end of JSON input"
  | some v => decodeString "" v

/-- Go `json.Marshal(msg)` for a `jsonrpcMessage`: `jsonrpc` is always written,
the members tagged `omitempty` only when they are not empty. -/
def marshalMessage (msg : jsonrpcMessage) : Except String JValue :=
  .ok (.obj ([("jsonrpc", JValue.str msg.Version)]
    ++ (match msg.ID with | none => [] | some v => [("id", v)])
    ++ (if msg.Method = "" then [] else [("method", JValue.str msg.Method)])
    ++ (match msg.Params with | none => [] | some v => [("params", v)])
    ++ (match msg.Error with | none => [] | some v => [("error", v)])
    ++ (match msg.Result with | none => [] | some v => [("result", v)])))

/-! ## Log records -/

/-- The log record `cfxLogResponse`; every field is transported as a string. -/
structure cfxLogResponse where
  LogIndex : String
  BlockNumber : String
  BlockHash : String
  TransactionHash : String
  TransactionIndex : String
  Address : String
  Data : String
  Topics : Slice String

/-- The zero value of `cfxLogResponse`. -/
def cfxLogResponse.zero : cfxLogResponse :=
  { LogIndex := "", BlockNumber := "", BlockHash := "", TransactionHash := "",
    TransactionIndex := "", Address := "", Data := "", Topics := none }

/-- Decoding one member `key: v` of a JSON object into a `cfxLogResponse`,
by the `json` tags of the struct. The state is the record and the spare
elements of the backing array of its `Topics`. -/
def setLogField (st : cfxLogResponse × List String) (key : String) (v : JValue) :
    Except String (cfxLogResponse × List String) :=
  let k := foldName key
  if k = "LOGINDEX" then
    match decodeString st.1.LogIndex v with
    | .error err => .error err
    | .ok s => .ok ({ st.1 with LogIndex := s }, st.2)
  else if k = "EPOCHNUMBER" then
    match decodeString st.1.BlockNumber v with
    | .error err => .error err
    | .ok s => .ok ({ st.1 with BlockNumber := s }, st.2)
  else if k = "BLOCKHASH" then
    match decodeString st.1.BlockHash v with
    | .error err => .error err
    | .ok s => .ok ({ st.1 with BlockHash := s }, st.2)
  else if k = "TRANSACTIONHASH" then
    match decodeString st.1.TransactionHash v with
    | .error err => .error err
    | .ok s => .ok ({ st.1 with TransactionHash := s }, st.2)
  else if k = "TRANSACTIONINDEX" then
    match decodeString st.1.TransactionIndex v with
    | .error err => .error err
    | .ok s => .ok ({ st.1 with TransactionIndex := s }, st.2)
  else if k = "ADDRESS" then
    match decodeString st.1.Address v with
    | .error err => .error err
    | .ok s => .ok ({ st.1 with Address := s }, st.2)
  else if k = "DATA" then
    match decodeString st.1.Data v with
    | .error err => .error err
    | .ok s => .ok ({ st.1 with Data := s }, st.2)
  else if k = "TOPICS" then
    match decodeStringSlice st.1.Topics st.2 v with
    | .error err => .error err
    | .ok ts => .ok ({ st.1 with Topics := ts.1 }, ts.2)
  else .ok st

/-- Decoding the members of a JSON object into a `cfxLogResponse`, in
document order. -/
def setLogFields : cfxLogResponse × List String → List (String × JValue) →
    Except String (cfxLogResponse × List String)
  | st, [] => .ok st
  | st, kv :: kvs =>
    match setLogField st kv.1 kv.2 with
    | .error err => .error err
    | .ok st1 => setLogFields st1 kvs

/-- Decoding one array element into a fresh `cfxLogResponse`: `null` leaves
the zero value, an object is decoded member by member, any other document is
an `UnmarshalTypeError`. -/
def decodeLogResponse : JValue → Except String cfxLogResponse
  | .null => .ok cfxLogResponse.zero
  | .obj kvs =>
    match setLogFields (cfxLogResponse.zero, []) kvs with
    | .error err => .error err
    | .ok st => .ok st.1
  | _ => .error "json: cannot unmarshal value into Go value of type blockchain.cfxLogResponse"

/-- Decoding the elements of a JSON array into log records, in order. -/
def decodeLogResponses : List JValue → Except String (List cfxLogResponse)
  | [] => .ok []
  | v :: vs =>
    match decodeLogResponse v with
    | .error err => .error err
    | .ok r =>
      match decodeLogResponses vs with
      | .error err => .error err
      | .ok rs => .ok (r :: rs)

/-- Go `json.Unmarshal(msg.Result, &rawEvents)` for a fresh
`[]cfxLogResponse`: an empty message fails, `null` leaves the `nil` slice, an
array is decoded element by element, any other document is an
`UnmarshalTypeError`. The slice is only ranged over afterwards, so it is
returned as the list of its elements. -/
def unmarshalLogResponses : RawMessage → Except String (List cfxLogResponse)
  | none => .error "unexpected end of JSON input"
  | some .null => .ok []
  | some (.arr xs) => decodeLogResponses xs
  | some _ => .error "json: cannot unmarshal value into Go value of type []blockchain.cfxLogResponse"

/-- Go `json.Marshal(evt)` for a `cfxLogResponse`: an object with the eight
tagged members in declaration order. It cannot fail for this struct. -/
def marshalLogResponse (evt : cfxLogResponse) : Except String Event :=
  .ok (.obj [("logIndex", .str evt.LogIndex), ("epochNumber", .str evt.BlockNumber),
    ("blockHash", .str evt.BlockHash), ("transactionHash", .str evt.TransactionHash),
    ("transactionIndex", .str evt.TransactionIndex), ("address", .str evt.Address),
    ("data", .str evt.Data), ("topics", marshalStringSlice evt.Topics)])

/-! ## The filter query and its encoder -/

/-- The filter query `cfxFilterQuery`. `BlockHash` is a pointer (`none` is
`nil`); `FromBlock` is the cursor of the connector. -/
structure cfxFilterQuery where
  BlockHash : Option Hash
  FromBlock : String
  ToBlock : String
  Addresses : Slice Address
  Topics : Slice (Slice Hash)
  deriving DecidableEq

/-- A value stored in the argument map built by `toMapInterface`
(the dynamic types that the `interface{}` values can have). -/
inductive ArgValue where
  | addresses (a : Slice Address) : ArgValue
  | topics (t : Slice (Slice Hash)) : ArgValue
  | hash (h : Hash) : ArgValue
  | str (s : String) : ArgValue
  deriving DecidableEq

/-- A Go `map[string]interface{}`: a list of bindings with distinct keys. -/
abbrev ArgMap := List (String × ArgValue)

/-- Go `m[k] = v`: replaces the binding of `k`, or adds one. -/
def ArgMap.set : ArgMap → String → ArgValue → ArgMap
  | [], k, v => [(k, v)]
  | (k1, v1) :: rest, k, v =>
    if k1 = k then (k, v) :: rest else (k1, v1) :: ArgMap.set rest k v

/-- Go `m[k]` with the presence flag: the value bound to `k`, if any. -/
def ArgMap.get : ArgMap → String → Option ArgValue
  | [], _ => none
  | (k1, v1) :: rest, k => if k1 = k then some v1 else ArgMap.get rest k

/-- The method `toMapInterface` of `cfxFilterQuery`: the Go results
`(interface{}, error)`, `none` standing for `nil` in both places. -/
def cfxFilterQuery.toMapInterface (q : cfxFilterQuery) : Option ArgMap × Option String :=
  let arg : ArgMap := [("address", ArgValue.addresses q.Addresses), ("topics", ArgValue.topics q.Topics)]
  match q.BlockHash with
  | some h =>
    let arg := arg.set "blockHash" (ArgValue.hash h)
    if q.FromBlock ≠ "" ∨ q.ToBlock ≠ "" then
      (none, some "cannot specify both BlockHash and FromBlock/ToBlock")
    else (some arg, none)
  | none =>
    let arg :=
      if q.FromBlock = "" then arg.set "fromBlock" (ArgValue.str "0x0")
      else arg.set "fromBlock" (ArgValue.str q.FromBlock)
    let arg :=
      if q.ToBlock = "" then arg.set "toBlock" (ArgValue.str "latest")
      else arg.set "toBlock" (ArgValue.str q.ToBlock)
    (some arg, none)

/-- The JSON encoding of a `[]common.Hash`: `null` for `nil`, else an array of
hex strings (`Hash.MarshalText`). -/
def marshalHashes : Slice Hash → JValue
  | none => .null
  | some hs => .arr (hs.map (fun h => JValue.str (hexutil.Encode h.bytes)))

/-- The JSON encoding of a value of the argument map. -/
def marshalArgValue : ArgValue → JValue
  | .addresses none => .null
  | .addresses (some as) => .arr (as.map (fun a => JValue.str (hexutil.Encode a.bytes)))
  | .topics none => .null
  | .topics (some ts) => .arr (ts.map marshalHashes)
  | .hash h => .str (hexutil.Encode h.bytes)
  | .str s => .str s

/-- The order of Go strings, on their runes: byte-wise comparison of UTF-8
text is comparison by code point. -/
def keyLess : List Char → List Char → Bool
  | _, [] => false
  | [], _ :: _ => true
  | a :: as, b :: bs =>
    if a.toNat < b.toNat then true
    else if a.toNat = b.toNat then keyLess as bs
    else false

/-- Insertion of a member into a list of members sorted by key. -/
def insertMember (kv : String × JValue) : List (String × JValue) → List (String × JValue)
  | [] => [kv]
  | x :: xs =>
    if keyLess kv.1.data x.1.data = true then kv :: x :: xs else x :: insertMember kv xs

/-- Go `json.Marshal(filter)` for the result of `toMapInterface`: a `nil`
interface is written as `null`, a map as an object with its keys sorted.
It cannot fail for the values stored in the map. -/
def marshalFilter : Option ArgMap → Except String JValue
  | none => .ok .null
  | some m => .ok (.obj ((m.map (fun kv => (kv.1, marshalArgValue kv.2))).foldr insertMember []))

/-! ## The connector -/

/-- The connector `cfxManager`: the query it owns (behind the pointer `fq`)
and its transport mode. -/
structure cfxManager where
  fq : cfxFilterQuery
  p : SubscriberType
  deriving DecidableEq

/-- The method `GetTriggerJson`: the request bytes (`none` for `nil`) and the
connector left behind. -/
def cfxManager.GetTriggerJson (e : cfxManager) : Option JValue × cfxManager :=
  let e : cfxManager :=
    if e.p = subscriber.RPC ∧ e.fq.FromBlock = "" then
      { e with fq := { e.fq with FromBlock := "latest_state" } }
    else e
  match e.fq.toMapInterface with
  | (_, some _) => (none, e)
  | (filter, none) =>
    match marshalFilter filter with
    | .error _ => (none, e)
    | .ok filterBytes =>
      let msg : jsonrpcMessage :=
        { jsonrpcMessage.zero with Version := "2.0", ID := some (JValue.num "1") }
      let msg := { msg with Method := "cfx_getLogs" }
      let msg := { msg with Params := some (JValue.arr [filterBytes]) }
      match marshalMessage msg with
      | .error _ => (none, e)
      | .ok bytes => (some bytes, e)

/-- The method `GetTestJson`: the probe request bytes (`none` for `nil`) and the
connector left behind; the body has no assignment through `fq`. -/
def cfxManager.GetTestJson (e : cfxManager) : Option JValue × cfxManager :=
  if e.p = subscriber.RPC then
    let msg : jsonrpcMessage :=
      { jsonrpcMessage.zero with Version := "2.0", ID := some (JValue.num "1"),
                                 Method := "cfx_epochNumber" }
    match marshalMessage msg with
    | .error _ => (none, e)
    | .ok bytes => (some bytes, e)
  else (none, e)

/-- The method `ParseTestResponse`: the returned error (`none` for `nil`) and
the connector left behind. -/
def cfxManager.ParseTestResponse (e : cfxManager) (data : Payload) : Option String × cfxManager :=
  if e.p = subscriber.RPC then
    match unmarshalMessage data with
    | .error err => (some err, e)
    | .ok msg =>
      match unmarshalString msg.Result with
      | .error err => (some err, e)
      | .ok res => (none, { e with fq := { e.fq with FromBlock := res } })
  else (none, e)

/-- Go `curBlkn.Cmp(fromBlkn) > 0`. It is only evaluated when decoding the
cursor succeeded, so the `nil` case is never consulted. -/
def cmpGt (curBlkn : Nat) : Option Nat → Bool
  | some fromBlkn => decide (curBlkn > fromBlkn)
  | none => false

/-- One pass of the body of the `for _, evt := range rawEvents` loop of
`ParseResponse`, on the events collected so far and the query. -/
def ParseResponse.loopBody (st : Slice Event × cfxFilterQuery) (evt : cfxLogResponse) :
    Slice Event × cfxFilterQuery :=
  match marshalLogResponse evt with
  | .error _ => st
  | .ok event =>
    let events := st.1.append event
    match hexutil.DecodeBig evt.BlockNumber with
    | none => (events, st.2)
    | some decoded =>
      let curBlkn := decoded + 1
      let fromBlkn := hexutil.DecodeBig st.2.FromBlock
      if fromBlkn = none ∧ ¬ (st.2.FromBlock = "latest" ∨ st.2.FromBlock = "") then
        (events, st.2)
      else if st.2.FromBlock = "latest" ∨ st.2.FromBlock = "" ∨ cmpGt curBlkn fromBlkn = true then
        (events, { st.2 with FromBlock := hexutil.EncodeBig curBlkn })
      else (events, st.2)

/-- The method `ParseResponse`: the events (`none` for `nil`), the success
flag, and the connector left behind. -/
def cfxManager.ParseResponse (e : cfxManager) (data : Payload) :
    (Slice Event × Bool) × cfxManager :=
  match unmarshalMessage data with
  | .error _ => ((none, false), e)
  | .ok msg =>
    if e.p = subscriber.RPC then
      match unmarshalLogResponses msg.Result with
      | .error _ => ((none, false), e)
      | .ok rawEvents =>
        let st := rawEvents.foldl ParseResponse.loopBody (none, e.fq)
        ((st.1, true), { e with fq := st.2 })
    else ((none, true), e)

/-! ## Vocabulary of the specification -/

/-- The log records carried by a response: the records of the result member
when both decoding steps of `ParseResponse` succeed. -/
def responseRecords (data : Payload) : Option (List cfxLogResponse) :=
  match unmarshalMessage data with
  | .error _ => none
  | .ok msg =>
    match unmarshalLogResponses msg.Result with
    | .error _ => none
    | .ok rs => some rs

/-- The decodable epoch numbers of a list of records, in order. -/
def decodedEpochs (rs : List cfxLogResponse) : List Nat :=
  rs.filterMap (fun r => hexutil.DecodeBig r.BlockNumber)

/-- The largest decodable epoch number among the records, if there is one. -/
def maxEpoch (rs : List cfxLogResponse) : Option Nat :=
  (decodedEpochs rs).max?

/-- A response envelope `{"jsonrpc":"2.0","id":1,"result": v}`. -/
def envelope (v : JValue) : Payload :=
  some (.obj [("jsonrpc", .str "2.0"), ("id", .num "1"), ("result", v)])

/-- The message that `envelope v` decodes to. -/
def envelopeMessage (v : JValue) : jsonrpcMessage :=
  { Version := "2.0", ID := some (.num "1"), Method := "", Params := none, Error := none,
    Result := some v }

/-- The JSON object of a log record with the given epoch number and no topics. -/
def recordJson (epochNumber : String) : JValue :=
  .obj [("logIndex", .str "0x0"), ("epochNumber", .str epochNumber), ("blockHash", .str "0x0"),
    ("transactionHash", .str "0x0"), ("transactionIndex", .str "0x0"), ("address", .str "0x0"),
    ("data", .str "0x"), ("topics", .arr [])]

/-- The log record that `recordJson` spells. -/
def recordOf (epochNumber : String) : cfxLogResponse :=
  { LogIndex := "0x0", BlockNumber := epochNumber, BlockHash := "0x0", TransactionHash := "0x0",
    TransactionIndex := "0x0", Address := "0x0", Data := "0x", Topics := some [] }

/-- A query with the given cursor and nothing else set. -/
def queryFrom (fromBlock : String) : cfxFilterQuery :=
  { BlockHash := none, FromBlock := fromBlock, ToBlock := "", Addresses := none, Topics := none }

/-- A connector in polling-RPC mode whose query has the given cursor and
nothing else set. -/
def rpcManager (fromBlock : String) : cfxManager :=
  { fq := queryFrom fromBlock, p := subscriber.RPC }

/-- The result member of an envelope does not hold a sequence of log records:
it is absent, or a string, a number, a boolean or an object, or an array with
an element that does not decode as a record. (`null` decodes as the `nil`
sequence.) -/
def notRecordSequence : RawMessage → Bool
  | none => true
  | some .null => false
  | some (.arr xs) => !(decodeLogResponses xs).toBool
  | some _ => true

/-! ## `common` (go-ethereum), the subscription config and the constructor -/

namespace common

/-- Go `common.Hex2Bytes` (`hex.DecodeString` with its error dropped): the
bytes spelled by the leading pairs of hex digits, up to the first character
that is not a hex digit. -/
def Hex2Bytes : List Char → List (Fin 256)
  | c1 :: c2 :: rest =>
    match hexutil.decodeNibble c1, hexutil.decodeNibble c2 with
    | some d1, some d2 => Fin.ofNat (d1 * 16 + d2) :: Hex2Bytes rest
    | _, _ => []
  | _ => []

/-- Go `len(s)` of a string given by its runes: the number of bytes of its
UTF-8 text. -/
def byteLen (s : List Char) : Nat := (s.map Char.utf8Size).sum

/-- Go `common.FromHex`: an optional `0x` marker is dropped, a string of odd
length is padded with a `0` in front, and the hex digits are decoded. -/
def FromHex (s : String) : List (Fin 256) :=
  let s1 := if hexutil.has0xPrefix s.data = true then s.data.drop 2 else s.data
  let s2 := if byteLen s1 % 2 = 1 then '0' :: s1 else s1
  Hex2Bytes s2

/-- Go `SetBytes` on an array of `size` bytes: `b` is cropped from the left
when it is too long and copied to the right end of the zero array. -/
def setBytes (size : Nat) (b : List (Fin 256)) : List (Fin 256) :=
  let b1 := if b.length > size then b.drop (b.length - size) else b
  List.replicate (size - b1.length) 0 ++ b1

/-- Go `common.HexToAddress`: `BytesToAddress(FromHex(s))`. -/
def HexToAddress (s : String) : Address := { bytes := setBytes 20 (FromHex s) }

/-- Go `common.HexToHash`: `BytesToHash(FromHex(s))`. -/
def HexToHash (s : String) : Hash := { bytes := setBytes 32 (FromHex s) }

end common

/-- Modelled from the spec: the Conflux part of the subscription config
(`store.CfxSubscription`, declared in the `store` package): the configured
address list and topic list, as plain strings. -/
structure store.CfxSubscription where
  Addresses : Slice String
  Topics : Slice String

/-- Modelled from the spec: the subscription config `store.Subscription`
(declared in the `store` package); the constructor only reads its `Conflux`
part. -/
structure store.Subscription where
  Conflux : store.CfxSubscription

/-- The constructor `createCfxManager`. The two `for ... range` loops are folds
over the configured strings, starting from the `nil` slices `addresses` and
`t`. -/
def createCfxManager (p : SubscriberType) (config : store.Subscription) : cfxManager :=
  let addresses : Slice Address :=
    config.Conflux.Addresses.toList.foldl (fun acc a => acc.append (common.HexToAddress a)) none
  let topics : Slice (Slice Hash) := none
  let t : Slice Hash :=
    config.Conflux.Topics.toList.foldl
      (fun acc value => if value.length < 1 then acc else acc.append (common.HexToHash value)) none
  let topics := topics.append t
  { fq := { BlockHash := none, FromBlock := "", ToBlock := "", Addresses := addresses,
            Topics := topics },
    p := p }

/-! ## Further vocabulary of the specification -/

/-- The event that `ParseResponse` emits for a record: its re-serialization. -/
def eventOf (r : cfxLogResponse) : Event :=
  match marshalLogResponse r with
  | .ok event => event
  | .error _ => .null

/-- The result member of an envelope does not decode as a string: it is absent,
or a number, a boolean, an array or an object. (`null` decodes without error
and leaves the empty string.) -/
def notStringResult : RawMessage → Bool
  | none => true
  | some (.str _) => false
  | some .null => false
  | some _ => true

/-- One call made by the owner of a connector during polling: a request for the
next fetch (`GetTriggerJson`) or the parsing of a fetch response
(`ParseResponse`). -/
inductive Call where
  | trigger : Call
  | parse (data : Payload) : Call

/-- The connector left behind by one call. -/
def Call.run (e : cfxManager) : Call → cfxManager
  | .trigger => e.GetTriggerJson.2
  | .parse data => (e.ParseResponse data).2

/-- The connector left behind by a sequence of calls, made in order. -/
def runCalls (e : cfxManager) (calls : List Call) : cfxManager := calls.foldl Call.run e

/-- A query with the given block hash and nothing else set. -/
def queryAt (h : Hash) : cfxFilterQuery :=
  { BlockHash := some h, FromBlock := "", ToBlock := "", Addresses := none, Topics := none }

end blockchain

/-! ## Facts about `hexutil` -/

namespace blockchain

namespace hexutil

theorem decodeNibble_hexChar (d : Nat) (h : d < 16) : decodeNibble (hexChar d) = some d := by
  interval_cases d <;> decide

theorem decodeNibble_lt (c : Char) (d : Nat) (h : decodeNibble c = some d) : d < 16 := by
  unfold decodeNibble at h
  simp only at h
  split_ifs at h with h1 h2 h3
  · have e : c.toNat - 48 = d := by injection h
    omega
  · have e : c.toNat - 65 + 10 = d := by injection h
    omega
  · have e : c.toNat - 97 + 10 = d := by injection h
    omega

theorem hexChar_ne_zero (d : Nat) (h0 : 0 < d) (h : d < 16) : hexChar d ≠ '0' := by
  interval_cases d <;> decide

theorem hexValue_hexDigitsAux (fuel : Nat) :
    ∀ (n : Nat) (l : List Char), n < fuel →
      hexValue (hexDigitsAux fuel n l) 0 = hexValue l n := by
  induction fuel with
  | zero => intro n l h; omega
  | succ fuel ih =>
    intro n l h
    unfold hexDigitsAux
    by_cases hn : n < 16
    · simp only [hn, if_true, hexValue, decodeNibble_hexChar n hn]
      simp
    · simp only [hn, if_false]
      rw [ih (n / 16) _ (by omega)]
      have hm : n % 16 < 16 := Nat.mod_lt _ (by norm_num)
      simp only [hexValue, decodeNibble_hexChar _ hm]
      congr 1
      omega

theorem hexDigitsAux_length_le (fuel : Nat) :
    ∀ (n k : Nat) (l : List Char), n < fuel → n < 16 ^ k → 0 < k →
      (hexDigitsAux fuel n l).length ≤ k + l.length := by
  induction fuel with
  | zero => intro n k l h; omega
  | succ fuel ih =>
    intro n k l h hk hpos
    unfold hexDigitsAux
    by_cases hn : n < 16
    · simp only [hn, if_true, List.length_cons]
      omega
    · simp only [hn, if_false]
      obtain ⟨j, rfl⟩ : ∃ j, k = j + 1 := ⟨k - 1, by omega⟩
      have hj : 0 < j := by
        rcases Nat.eq_zero_or_pos j with h0 | h0
        · subst h0; simp at hk; omega
        · exact h0
      have hdiv : n / 16 < 16 ^ j := by
        rw [Nat.div_lt_iff_lt_mul (by norm_num)]
        rw [pow_succ] at hk
        exact hk
      have := ih (n / 16) j (hexChar (n % 16) :: l) (by omega) hdiv hj
      simp only [List.length_cons] at this
      omega

theorem hexDigitsAux_length_gt (fuel : Nat) :
    ∀ (n k : Nat) (l : List Char), n < fuel → 16 ^ k ≤ n →
      k + l.length < (hexDigitsAux fuel n l).length := by
  induction fuel with
  | zero => intro n k l h; omega
  | succ fuel ih =>
    intro n k l h hk
    unfold hexDigitsAux
    by_cases hn : n < 16
    · simp only [hn, if_true, List.length_cons]
      have : k = 0 := by
        rcases Nat.eq_zero_or_pos k with h0 | h0
        · exact h0
        · have : 16 ^ 1 ≤ 16 ^ k := Nat.pow_le_pow_right (by norm_num) h0
          omega
      omega
    · simp only [hn, if_false]
      rcases Nat.eq_zero_or_pos k with h0 | h0
      · subst h0
        have := ih (n / 16) 0 (hexChar (n % 16) :: l) (by omega) (by simp; omega)
        simp only [List.length_cons] at this
        omega
      · obtain ⟨j, rfl⟩ : ∃ j, k = j + 1 := ⟨k - 1, by omega⟩
        have hdiv : 16 ^ j ≤ n / 16 := by
          rw [Nat.le_div_iff_mul_le (by norm_num)]
          rw [pow_succ] at hk
          exact hk
        have := ih (n / 16) j (hexChar (n % 16) :: l) (by omega) hdiv
        simp only [List.length_cons] at this
        omega

theorem hexDigitsAux_head (fuel : Nat) :
    ∀ (n : Nat) (l : List Char), n < fuel → 0 < n →
      ∃ c cs, hexDigitsAux fuel n l = c :: cs ∧ c ≠ '0' := by
  induction fuel with
  | zero => intro n l h; omega
  | succ fuel ih =>
    intro n l h hpos
    unfold hexDigitsAux
    by_cases hn : n < 16
    · simp only [hn, if_true]
      exact ⟨_, _, rfl, hexChar_ne_zero n hpos hn⟩
    · simp only [hn, if_false]
      exact ih (n / 16) _ (by omega) (by omega)

theorem hexValue_lt (l : List Char) :
    ∀ (a n : Nat), hexValue l a = some n → n < (a + 1) * 16 ^ l.length := by
  induction l with
  | nil =>
    intro a n h
    simp only [hexValue, Option.some.injEq] at h
    simp; omega
  | cons c cs ih =>
    intro a n h
    unfold hexValue at h
    cases hc : decodeNibble c with
    | none => simp [hc] at h
    | some d =>
      simp only [hc] at h
      have hd := decodeNibble_lt c d hc
      have h1 := ih _ _ h
      have h2 : (a * 16 + d + 1) * 16 ^ cs.length ≤ ((a + 1) * 16) * 16 ^ cs.length :=
        Nat.mul_le_mul_right _ (by omega)
      calc n < (a * 16 + d + 1) * 16 ^ cs.length := h1
        _ ≤ ((a + 1) * 16) * 16 ^ cs.length := h2
        _ = (a + 1) * 16 ^ (c :: cs).length := by
            rw [List.length_cons, pow_succ]; ring

theorem DecodeBig_lt (s : String) (n : Nat) (h : DecodeBig s = some n) : n < 2 ^ 256 := by
  unfold DecodeBig at h
  cases hc : checkNumber s with
  | none => simp [hc] at h
  | some raw =>
    simp only [hc] at h
    by_cases hl : raw.length > 64
    · simp [hl] at h
    · simp only [hl, if_false] at h
      have h1 := hexValue_lt raw 0 n h
      have h2 : (16 : Nat) ^ raw.length ≤ 16 ^ 64 := Nat.pow_le_pow_right (by norm_num) (by omega)
      have h3 : (16 : Nat) ^ 64 = 2 ^ 256 := by norm_num
      omega

theorem hexDigits_length_pos (n : Nat) : 0 < (hexDigits n).length := by
  unfold hexDigits
  rcases Nat.eq_zero_or_pos n with h0 | h0
  · subst h0; decide
  · have := hexDigitsAux_length_gt (n + 1) n 0 [] (by omega) (by simpa using h0)
    omega

theorem checkNumber_EncodeBig (n : Nat) : checkNumber (EncodeBig n) = some (hexDigits n) := by
  unfold EncodeBig
  by_cases h0 : n = 0
  · subst h0; decide
  · simp only [h0, if_false]
    have hpos := hexDigits_length_pos n
    obtain ⟨c, cs, hcs, hc⟩ := hexDigitsAux_head (n + 1) n [] (by omega) (by omega)
    have hd : hexDigits n = c :: cs := hcs
    unfold checkNumber
    simp only [has0xPrefix, List.length_cons, List.drop_succ_cons, List.drop_zero, hd]
    simp [hc]

theorem DecodeBig_EncodeBig (n : Nat) (h : n < 2 ^ 256) : DecodeBig (EncodeBig n) = some n := by
  unfold DecodeBig
  rw [checkNumber_EncodeBig]
  have hl : (hexDigits n).length ≤ 64 := by
    have := hexDigitsAux_length_le (n + 1) n 64 [] (by omega) (by norm_num at h ⊢; exact h) (by norm_num)
    simpa [hexDigits] using this
  have hv : hexValue (hexDigits n) 0 = some n := by
    unfold hexDigits
    rw [hexValue_hexDigitsAux (n + 1) n [] (by omega)]
    rfl
  simp only [gt_iff_lt, not_lt.mpr hl, if_false, hv]

theorem DecodeBig_EncodeBig_big (n : Nat) (h : 2 ^ 256 ≤ n) : DecodeBig (EncodeBig n) = none := by
  unfold DecodeBig
  rw [checkNumber_EncodeBig]
  have hl : 64 < (hexDigits n).length := by
    have := hexDigitsAux_length_gt (n + 1) n 64 [] (by omega) (by norm_num at h ⊢; exact h)
    simpa [hexDigits] using this
  simp only [gt_iff_lt, hl, if_true]

theorem EncodeBig_ne_latest (n : Nat) : EncodeBig n ≠ "latest" := by
  intro h
  have h1 := checkNumber_EncodeBig n
  rw [h] at h1
  have h2 : checkNumber "latest" = none := by decide
  rw [h2] at h1
  exact Option.noConfusion h1

theorem EncodeBig_ne_empty (n : Nat) : EncodeBig n ≠ "" := by
  intro h
  have h1 := checkNumber_EncodeBig n
  rw [h] at h1
  have h2 : checkNumber "" = none := by decide
  rw [h2] at h1
  exact Option.noConfusion h1

theorem DecodeBig_latest : DecodeBig "latest" = none := by decide

theorem DecodeBig_empty : DecodeBig "" = none := by decide

end hexutil

end blockchain

/-! ## The cursor under the loop of `ParseResponse` -/

namespace blockchain

open hexutil

theorem maxEpoch_cons_none (r : cfxLogResponse) (rs : List cfxLogResponse)
    (h : DecodeBig r.BlockNumber = none) : maxEpoch (r :: rs) = maxEpoch rs := by
  simp [maxEpoch, decodedEpochs, List.filterMap_cons, h]

theorem maxEpoch_cons_some (r : cfxLogResponse) (rs : List cfxLogResponse) (b : Nat)
    (h : DecodeBig r.BlockNumber = some b) :
    maxEpoch (r :: rs) = some (match maxEpoch rs with
      | none => b
      | some M => max b M) := by
  simp only [maxEpoch, decodedEpochs, List.filterMap_cons, h, List.max?_cons]
  cases (List.filterMap (fun r => DecodeBig r.BlockNumber) rs).max? <;> rfl

theorem maxEpoch_lt (rs : List cfxLogResponse) :
    ∀ M, maxEpoch rs = some M → M < 2 ^ 256 := by
  induction rs with
  | nil => intro M h; simp [maxEpoch, decodedEpochs] at h
  | cons r rs ih =>
    intro M h
    cases hb : DecodeBig r.BlockNumber with
    | none =>
      rw [maxEpoch_cons_none r rs hb] at h
      exact ih M h
    | some b =>
      rw [maxEpoch_cons_some r rs b hb] at h
      have hlt := DecodeBig_lt _ _ hb
      cases hm : maxEpoch rs with
      | none =>
        simp only [hm, Option.some.injEq] at h
        omega
      | some M1 =>
        simp only [hm, Option.some.injEq] at h
        have := ih M1 hm
        rw [← h]
        exact max_lt hlt this

theorem loopBody_undecodable (st : Slice Event × cfxFilterQuery) (evt : cfxLogResponse)
    (h : DecodeBig evt.BlockNumber = none) : (ParseResponse.loopBody st evt).2 = st.2 := by
  simp [ParseResponse.loopBody, marshalLogResponse, h]

theorem loopBody_stuck (st : Slice Event × cfxFilterQuery) (evt : cfxLogResponse)
    (h1 : DecodeBig st.2.FromBlock = none) (h2 : st.2.FromBlock ≠ "latest")
    (h3 : st.2.FromBlock ≠ "") : (ParseResponse.loopBody st evt).2 = st.2 := by
  unfold ParseResponse.loopBody
  simp only [marshalLogResponse]
  cases hb : DecodeBig evt.BlockNumber with
  | none => rfl
  | some b => simp [h1, h2, h3]

theorem loopBody_sentinel (st : Slice Event × cfxFilterQuery) (evt : cfxLogResponse) (b : Nat)
    (hs : st.2.FromBlock = "latest" ∨ st.2.FromBlock = "")
    (hb : DecodeBig evt.BlockNumber = some b) :
    (ParseResponse.loopBody st evt).2 = { st.2 with FromBlock := EncodeBig (b + 1) } := by
  unfold ParseResponse.loopBody
  simp only [marshalLogResponse, hb]
  rcases hs with hs | hs <;> simp [hs]

theorem loopBody_number (st : Slice Event × cfxFilterQuery) (evt : cfxLogResponse) (b c : Nat)
    (hc : DecodeBig st.2.FromBlock = some c) (hb : DecodeBig evt.BlockNumber = some b) :
    (ParseResponse.loopBody st evt).2 =
      if c < b + 1 then { st.2 with FromBlock := EncodeBig (b + 1) } else st.2 := by
  have n1 : st.2.FromBlock ≠ "latest" := by
    intro h; rw [h, DecodeBig_latest] at hc; exact Option.noConfusion hc
  have n2 : st.2.FromBlock ≠ "" := by
    intro h; rw [h, DecodeBig_empty] at hc; exact Option.noConfusion hc
  unfold ParseResponse.loopBody
  simp only [marshalLogResponse, hb, hc]
  by_cases hlt : c < b + 1 <;> simp [n1, n2, cmpGt, hlt]

theorem loop_stuck (rs : List cfxLogResponse) :
    ∀ st : Slice Event × cfxFilterQuery,
      DecodeBig st.2.FromBlock = none → st.2.FromBlock ≠ "latest" → st.2.FromBlock ≠ "" →
      (rs.foldl ParseResponse.loopBody st).2 = st.2 := by
  induction rs with
  | nil => intro st _ _ _; rfl
  | cons r rs ih =>
    intro st h1 h2 h3
    have hstep := loopBody_stuck st r h1 h2 h3
    rw [List.foldl_cons, ih _ (by rw [hstep]; exact h1) (by rw [hstep]; exact h2)
      (by rw [hstep]; exact h3), hstep]

theorem loop_number (rs : List cfxLogResponse) :
    ∀ (st : Slice Event × cfxFilterQuery) (c : Nat), DecodeBig st.2.FromBlock = some c →
      (rs.foldl ParseResponse.loopBody st).2 =
        match maxEpoch rs with
        | some M => if c < M + 1 then { st.2 with FromBlock := EncodeBig (M + 1) } else st.2
        | none => st.2 := by
  induction rs with
  | nil => intro st c _; rfl
  | cons r rs ih =>
    intro st c hc
    rw [List.foldl_cons]
    cases hb : DecodeBig r.BlockNumber with
    | none =>
      have hstep := loopBody_undecodable st r hb
      rw [maxEpoch_cons_none r rs hb, ih _ c (by rw [hstep]; exact hc), hstep]
    | some b =>
      have hstep := loopBody_number st r b c hc hb
      have hblt := DecodeBig_lt _ _ hb
      rw [maxEpoch_cons_some r rs b hb]
      by_cases hlt : c < b + 1
      · simp only [hlt, if_true] at hstep
        by_cases hbig : b + 1 < 2 ^ 256
        · have hc1 : DecodeBig (ParseResponse.loopBody st r).2.FromBlock = some (b + 1) := by
            rw [hstep]; exact DecodeBig_EncodeBig _ hbig
          rw [ih _ (b + 1) hc1, hstep]
          cases hm : maxEpoch rs with
          | none => simp [hlt]
          | some M =>
            simp only
            by_cases h2 : b + 1 < M + 1
            · have e1 : max b M = M := by omega
              have e2 : c < M + 1 := by omega
              simp [h2, e1, e2]
            · have e1 : max b M = b := by omega
              simp [h2, e1, hlt]
        · have hnone : DecodeBig (ParseResponse.loopBody st r).2.FromBlock = none := by
            rw [hstep]; exact DecodeBig_EncodeBig_big _ (by omega)
          rw [loop_stuck rs _ hnone (by rw [hstep]; exact EncodeBig_ne_latest (b + 1))
            (by rw [hstep]; exact EncodeBig_ne_empty (b + 1)), hstep]
          cases hm : maxEpoch rs with
          | none => simp [hlt]
          | some M =>
            have := maxEpoch_lt rs M hm
            have e1 : max b M = b := by omega
            simp [e1, hlt]
      · simp only [hlt, if_false] at hstep
        rw [ih _ c (by rw [hstep]; exact hc), hstep]
        cases hm : maxEpoch rs with
        | none => simp [hlt]
        | some M =>
          simp only
          by_cases h2 : c < M + 1
          · have e1 : max b M = M := by omega
            simp [h2, e1]
          · have e2 : ¬ c < max b M + 1 := by omega
            simp [h2, e2]

theorem loop_sentinel (rs : List cfxLogResponse) :
    ∀ st : Slice Event × cfxFilterQuery, st.2.FromBlock = "latest" ∨ st.2.FromBlock = "" →
      (rs.foldl ParseResponse.loopBody st).2 =
        match maxEpoch rs with
        | some M => { st.2 with FromBlock := EncodeBig (M + 1) }
        | none => st.2 := by
  induction rs with
  | nil => intro st _; rfl
  | cons r rs ih =>
    intro st hs
    rw [List.foldl_cons]
    cases hb : DecodeBig r.BlockNumber with
    | none =>
      have hstep := loopBody_undecodable st r hb
      rw [maxEpoch_cons_none r rs hb, ih _ (by rw [hstep]; exact hs), hstep]
    | some b =>
      have hstep := loopBody_sentinel st r b hs hb
      have hblt := DecodeBig_lt _ _ hb
      rw [maxEpoch_cons_some r rs b hb]
      by_cases hbig : b + 1 < 2 ^ 256
      · have hc1 : DecodeBig (ParseResponse.loopBody st r).2.FromBlock = some (b + 1) := by
          rw [hstep]; exact DecodeBig_EncodeBig _ hbig
        rw [loop_number rs _ (b + 1) hc1, hstep]
        cases hm : maxEpoch rs with
        | none => simp
        | some M =>
          simp only
          by_cases h2 : b + 1 < M + 1
          · have e1 : max b M = M := by omega
            simp [h2, e1]
          · have e1 : max b M = b := by omega
            simp [h2, e1]
      · have hnone : DecodeBig (ParseResponse.loopBody st r).2.FromBlock = none := by
          rw [hstep]; exact DecodeBig_EncodeBig_big _ (by omega)
        rw [loop_stuck rs _ hnone (by rw [hstep]; exact EncodeBig_ne_latest (b + 1))
          (by rw [hstep]; exact EncodeBig_ne_empty (b + 1)), hstep]
        cases hm : maxEpoch rs with
        | none => simp
        | some M =>
          have := maxEpoch_lt rs M hm
          have e1 : max b M = b := by omega
          simp [e1]

end blockchain

/-! ## `ParseResponse` -/

namespace blockchain

open hexutil

theorem ParseResponse_of_records (e : cfxManager) (data : Payload) (rs : List cfxLogResponse)
    (hp : e.p = subscriber.RPC) (h : responseRecords data = some rs) :
    e.ParseResponse data =
      (((rs.foldl ParseResponse.loopBody (none, e.fq)).1, true),
        { e with fq := (rs.foldl ParseResponse.loopBody (none, e.fq)).2 }) := by
  unfold responseRecords at h
  unfold cfxManager.ParseResponse
  cases hm : unmarshalMessage data with
  | error err => simp [hm] at h
  | ok msg =>
    simp only [hm] at h ⊢
    cases hr : unmarshalLogResponses msg.Result with
    | error err => simp [hr] at h
    | ok rs1 =>
      simp only [hr, Option.some.injEq] at h
      subst h
      simp [hp]

theorem ParseResponse_of_no_records (e : cfxManager) (data : Payload)
    (hp : e.p = subscriber.RPC) (h : responseRecords data = none) :
    e.ParseResponse data = ((none, false), e) := by
  unfold responseRecords at h
  unfold cfxManager.ParseResponse
  cases hm : unmarshalMessage data with
  | error err => rfl
  | ok msg =>
    simp only [hm] at h ⊢
    cases hr : unmarshalLogResponses msg.Result with
    | error err => simp [hp]
    | ok rs1 => simp [hr] at h

theorem maxEpoch_pair (r1 r2 : cfxLogResponse) (b1 b2 : Nat)
    (h1 : DecodeBig r1.BlockNumber = some b1) (h2 : DecodeBig r2.BlockNumber = some b2) :
    maxEpoch [r1, r2] = some (max b1 b2) := by
  rw [maxEpoch_cons_some r1 _ b1 h1, maxEpoch_cons_some r2 _ b2 h2]
  rfl

theorem cursor_of_max (e : cfxManager) (data : Payload) (rs : List cfxLogResponse) (M : Nat)
    (hp : e.p = subscriber.RPC) (h : responseRecords data = some rs)
    (hM : maxEpoch rs = some M)
    (hcur : e.fq.FromBlock = "latest" ∨ e.fq.FromBlock = "" ∨
      ∃ c, DecodeBig e.fq.FromBlock = some c ∧ c ≤ M) :
    (e.ParseResponse data).2.fq.FromBlock = EncodeBig (M + 1) := by
  rw [ParseResponse_of_records e data rs hp h]
  rcases hcur with hs | hs | ⟨c, hc, hle⟩
  · rw [loop_sentinel rs (none, e.fq) (Or.inl hs), hM]
  · rw [loop_sentinel rs (none, e.fq) (Or.inr hs), hM]
  · rw [loop_number rs (none, e.fq) c hc, hM]
    have : c < M + 1 := by omega
    simp [this]

/-- C1, counterexample: a connector in RPC mode whose cursor `0x100` is ahead
of both records keeps its cursor on a response with the two records `0x1` and
`0x2`, in either order; the cursor is not `hex(2 + 1)`. -/
theorem ParseResponse_two_records_counterexample :
    ((rpcManager "0x100").ParseResponse
        (envelope (.arr [recordJson "0x1", recordJson "0x2"]))).2.fq.FromBlock = "0x100"
    ∧ ((rpcManager "0x100").ParseResponse
        (envelope (.arr [recordJson "0x2", recordJson "0x1"]))).2.fq.FromBlock = "0x100"
    ∧ DecodeBig "0x1" = some 1 ∧ DecodeBig "0x2" = some 2
    ∧ EncodeBig (2 + 1) = "0x3" := by
  decide

/-- C1 (amended): for a connector in RPC mode whose cursor is `""` or
`"latest"`, or decodes to a number not above `b2`, and two responses whose
result arrays hold the same two records, with decodable epoch numbers
`b1 < b2`, in the two possible orders, `ParseResponse` leaves the cursor at
`hexutil.EncodeBig (b2 + 1)` for both. -/
theorem ParseResponse_two_records_order (e : cfxManager) (data data2 : Payload)
    (r1 r2 : cfxLogResponse) (b1 b2 : Nat)
    (hp : e.p = subscriber.RPC)
    (hcur : e.fq.FromBlock = "latest" ∨ e.fq.FromBlock = "" ∨
      ∃ c, DecodeBig e.fq.FromBlock = some c ∧ c ≤ b2)
    (hd : responseRecords data = some [r1, r2])
    (hd2 : responseRecords data2 = some [r2, r1])
    (h1 : DecodeBig r1.BlockNumber = some b1) (h2 : DecodeBig r2.BlockNumber = some b2)
    (hlt : b1 < b2) :
    (e.ParseResponse data).2.fq.FromBlock = EncodeBig (b2 + 1)
    ∧ (e.ParseResponse data2).2.fq.FromBlock = EncodeBig (b2 + 1) := by
  have m1 : maxEpoch [r1, r2] = some b2 := by
    rw [maxEpoch_pair r1 r2 b1 b2 h1 h2, max_eq_right (le_of_lt hlt)]
  have m2 : maxEpoch [r2, r1] = some b2 := by
    rw [maxEpoch_pair r2 r1 b2 b1 h2 h1, max_eq_left (le_of_lt hlt)]
  exact ⟨cursor_of_max e data _ b2 hp hd m1 hcur, cursor_of_max e data2 _ b2 hp hd2 m2 hcur⟩

/-- C1 (amended), at a concrete input: from the cursor `0x1` the records
`0x5`, `0x9` move the cursor to `0xa` in both orders. -/
theorem ParseResponse_two_records_order_witness :
    ((rpcManager "0x1").ParseResponse
        (envelope (.arr [recordJson "0x5", recordJson "0x9"]))).2.fq.FromBlock = EncodeBig (9 + 1)
    ∧ ((rpcManager "0x1").ParseResponse
        (envelope (.arr [recordJson "0x9", recordJson "0x5"]))).2.fq.FromBlock = EncodeBig (9 + 1) :=
  ParseResponse_two_records_order (rpcManager "0x1")
    (envelope (.arr [recordJson "0x5", recordJson "0x9"]))
    (envelope (.arr [recordJson "0x9", recordJson "0x5"]))
    (recordOf "0x5") (recordOf "0x9") 5 9
    rfl (Or.inr (Or.inr ⟨1, by decide, by decide⟩)) rfl rfl (by decide) (by decide) (by decide)

end blockchain

namespace blockchain

open hexutil

/-- C2, the code at the failing input: `GetTriggerJson` on a fresh connector
in RPC mode installs the cursor `"latest_state"`, and from that cursor
`ParseResponse` on a response with one record of epoch number `0x64` returns
the event but leaves the cursor at `"latest_state"`, not at
`hexutil.EncodeBig (100 + 1) = "0x65"`; from the cursors `""` and `"latest"`
the same response does move the cursor to `"0x65"`. -/
theorem ParseResponse_latest_state_not_advanced :
    (rpcManager "").GetTriggerJson.2 = rpcManager "latest_state"
    ∧ DecodeBig "0x64" = some 100
    ∧ EncodeBig (100 + 1) = "0x65"
    ∧ ((rpcManager "latest_state").ParseResponse
        (envelope (.arr [recordJson "0x64"]))).2.fq.FromBlock = "latest_state"
    ∧ ((rpcManager "latest_state").ParseResponse
        (envelope (.arr [recordJson "0x64"]))).1.2 = true
    ∧ ((rpcManager "").ParseResponse
        (envelope (.arr [recordJson "0x64"]))).2.fq.FromBlock = "0x65"
    ∧ ((rpcManager "latest").ParseResponse
        (envelope (.arr [recordJson "0x64"]))).2.fq.FromBlock = "0x65" := by
  decide

/-- C3: for a connector in RPC mode whose cursor decodes to `c`, and every
payload, `ParseResponse` leaves the cursor at `hexutil.EncodeBig (M + 1)` when
the response carries records with a largest decodable epoch number `M` and
`M + 1 > c`, and at the original string otherwise (the payload does not decode,
no record has a decodable epoch number, or `M + 1 ≤ c`). The cursor never
moves back: it is the original string or the encoding of a number above `c`,
and whenever it decodes, it decodes to at least `c`. -/
theorem ParseResponse_cursor_forward (e : cfxManager) (data : Payload) (c : Nat)
    (hp : e.p = subscriber.RPC) (hc : DecodeBig e.fq.FromBlock = some c) :
    (e.ParseResponse data).2.fq.FromBlock =
      (match (responseRecords data).bind maxEpoch with
        | some M => if M + 1 > c then EncodeBig (M + 1) else e.fq.FromBlock
        | none => e.fq.FromBlock)
    ∧ ((e.ParseResponse data).2.fq.FromBlock = e.fq.FromBlock
        ∨ ∃ n, c < n ∧ (e.ParseResponse data).2.fq.FromBlock = EncodeBig n)
    ∧ (∀ c2, DecodeBig (e.ParseResponse data).2.fq.FromBlock = some c2 → c ≤ c2) := by
  have key : (e.ParseResponse data).2.fq.FromBlock =
      (match (responseRecords data).bind maxEpoch with
        | some M => if M + 1 > c then EncodeBig (M + 1) else e.fq.FromBlock
        | none => e.fq.FromBlock) := by
    cases hr : responseRecords data with
    | none =>
      rw [ParseResponse_of_no_records e data hp hr]
      rfl
    | some rs =>
      rw [ParseResponse_of_records e data rs hp hr]
      simp only [Option.some_bind]
      rw [loop_number rs (none, e.fq) c hc]
      cases hm : maxEpoch rs with
      | none => rfl
      | some M =>
        by_cases hlt : c < M + 1
        · simp [hlt]
        · simp [hlt]
  have cases2 : (e.ParseResponse data).2.fq.FromBlock = e.fq.FromBlock
      ∨ ∃ n, c < n ∧ n ≤ 2 ^ 256 ∧ (e.ParseResponse data).2.fq.FromBlock = EncodeBig n := by
    rw [key]
    cases hm : (responseRecords data).bind maxEpoch with
    | none => exact Or.inl rfl
    | some M =>
      have hM : M < 2 ^ 256 := by
        cases hr : responseRecords data with
        | none => simp [hr] at hm
        | some rs =>
          simp only [hr, Option.some_bind] at hm
          exact maxEpoch_lt rs M hm
      by_cases hlt : M + 1 > c
      · show (if M + 1 > c then EncodeBig (M + 1) else e.fq.FromBlock) = e.fq.FromBlock
          ∨ ∃ n, c < n ∧ n ≤ 2 ^ 256 ∧
            (if M + 1 > c then EncodeBig (M + 1) else e.fq.FromBlock) = EncodeBig n
        rw [if_pos hlt]
        exact Or.inr ⟨M + 1, hlt, by omega, rfl⟩
      · show (if M + 1 > c then EncodeBig (M + 1) else e.fq.FromBlock) = e.fq.FromBlock
          ∨ ∃ n, c < n ∧ n ≤ 2 ^ 256 ∧
            (if M + 1 > c then EncodeBig (M + 1) else e.fq.FromBlock) = EncodeBig n
        rw [if_neg hlt]
        exact Or.inl rfl
  refine ⟨key, ?_, ?_⟩
  · rcases cases2 with h | ⟨n, hn, _, h⟩
    · exact Or.inl h
    · exact Or.inr ⟨n, hn, h⟩
  · intro c2 h2
    rcases cases2 with h | ⟨n, hn, hle, h⟩
    · rw [h, hc] at h2
      injection h2 with h2
      omega
    · rw [h] at h2
      by_cases hb : n < 2 ^ 256
      · rw [DecodeBig_EncodeBig n hb] at h2
        injection h2 with h2
        omega
      · rw [DecodeBig_EncodeBig_big n (by omega)] at h2
        exact Option.noConfusion h2

/-- C3, at a concrete input: from the cursor `0x64`, a response with the
records `0x63` and `0x64` moves the cursor to `0x65`. -/
theorem ParseResponse_cursor_forward_witness :
    (rpcManager "0x64").p = subscriber.RPC
    ∧ DecodeBig (rpcManager "0x64").fq.FromBlock = some 100
    ∧ ((rpcManager "0x64").ParseResponse
        (envelope (.arr [recordJson "0x63", recordJson "0x64"]))).2.fq.FromBlock = "0x65" :=
  ⟨rfl, by decide,
    (ParseResponse_cursor_forward (rpcManager "0x64")
      (envelope (.arr [recordJson "0x63", recordJson "0x64"])) 100 rfl (by decide)).1.trans
      (by decide)⟩

end blockchain

namespace blockchain

open hexutil

/-- C4, counterexample: for the block number `n = 2 ^ 256` the probe stores
`hex(n)`, a hex quantity of 65 digits that `hexutil.DecodeBig` refuses; the
following fetch with one record of epoch number `hex(n)` returns its event but
leaves the cursor at `hex(n)`, which is not `hex(n + 1)`. -/
theorem probe_then_fetch_counterexample :
    ((rpcManager "").ParseTestResponse (envelope (.str (EncodeBig (2 ^ 256))))).1 = none
    ∧ ((rpcManager "").ParseTestResponse (envelope (.str (EncodeBig (2 ^ 256))))).2
        = rpcManager (EncodeBig (2 ^ 256))
    ∧ ((rpcManager (EncodeBig (2 ^ 256))).ParseResponse
        (envelope (.arr [recordJson (EncodeBig (2 ^ 256))]))).1.2 = true
    ∧ ((rpcManager (EncodeBig (2 ^ 256))).ParseResponse
        (envelope (.arr [recordJson (EncodeBig (2 ^ 256))]))).2.fq.FromBlock
        = EncodeBig (2 ^ 256)
    ∧ EncodeBig (2 ^ 256) ≠ EncodeBig (2 ^ 256 + 1) := by
  decide

/-- C4 (amended): probe-then-fetch for every block number `n < 2 ^ 256`. From
a connector in RPC mode, `ParseTestResponse` on an envelope whose result is the
string `hex(n)` returns no error and sets the cursor to that string, changing
nothing else; a following `ParseResponse` on an envelope whose result is one
record with epoch number `hex(n)` returns exactly one event, the encoding of
that record, with `ok = true`, and sets the cursor to `hex(n + 1)`. -/
theorem probe_then_fetch (e : cfxManager) (n : Nat) (data data2 : Payload)
    (msg : jsonrpcMessage) (r : cfxLogResponse)
    (hn : n < 2 ^ 256)
    (hp : e.p = subscriber.RPC)
    (hd : unmarshalMessage data = .ok msg) (hres : msg.Result = some (.str (EncodeBig n)))
    (hd2 : responseRecords data2 = some [r]) (hr : r.BlockNumber = EncodeBig n) :
    (e.ParseTestResponse data).1 = none
    ∧ (e.ParseTestResponse data).2 = { e with fq := { e.fq with FromBlock := EncodeBig n } }
    ∧ (∃ ev, marshalLogResponse r = .ok ev
        ∧ ((e.ParseTestResponse data).2.ParseResponse data2).1 = (some [ev], true))
    ∧ ((e.ParseTestResponse data).2.ParseResponse data2).2.fq.FromBlock = EncodeBig (n + 1) := by
  have hprobe : e.ParseTestResponse data
      = (none, { e with fq := { e.fq with FromBlock := EncodeBig n } }) := by
    unfold cfxManager.ParseTestResponse
    simp [hp, hd, hres, unmarshalString, decodeString]
  have hdec : DecodeBig r.BlockNumber = some n := by
    rw [hr]; exact DecodeBig_EncodeBig n hn
  have hcur : DecodeBig (EncodeBig n) = some n := DecodeBig_EncodeBig n hn
  have hfetch := ParseResponse_of_records
    { e with fq := { e.fq with FromBlock := EncodeBig n } } data2 [r] hp hd2
  rw [hprobe]
  refine ⟨rfl, rfl, ?_, ?_⟩
  · refine ⟨_, rfl, ?_⟩
    show (cfxManager.ParseResponse
      { e with fq := { e.fq with FromBlock := EncodeBig n } } data2).1 = _
    rw [hfetch]
    simp [ParseResponse.loopBody, marshalLogResponse, hdec, hcur, Slice.append, Slice.toList,
      EncodeBig_ne_latest, EncodeBig_ne_empty, cmpGt]
  · show (cfxManager.ParseResponse
      { e with fq := { e.fq with FromBlock := EncodeBig n } } data2).2.fq.FromBlock = _
    rw [hfetch]
    simp [ParseResponse.loopBody, marshalLogResponse, hdec, hcur,
      EncodeBig_ne_latest, EncodeBig_ne_empty, cmpGt]

/-- C4 (amended), at the block number 100: the probe result `0x64` becomes the
cursor, and the fetch of one record of epoch number `0x64` returns one event
and moves the cursor to `0x65`. -/
theorem probe_then_fetch_witness :
    ((rpcManager "").ParseTestResponse (envelope (.str "0x64"))).1 = none
    ∧ ((rpcManager "").ParseTestResponse (envelope (.str "0x64"))).2.fq.FromBlock = "0x64"
    ∧ (((rpcManager "").ParseTestResponse (envelope (.str "0x64"))).2.ParseResponse
        (envelope (.arr [recordJson "0x64"]))).2.fq.FromBlock = "0x65" :=
  have h := probe_then_fetch (rpcManager "") 100 (envelope (.str "0x64"))
    (envelope (.arr [recordJson "0x64"]))
    (envelopeMessage (.str "0x64"))
    (recordOf "0x64") (by norm_num) rfl rfl rfl rfl rfl
  ⟨h.1, by rw [h.2.1]; rfl, h.2.2.2.trans (by decide)⟩

end blockchain

/-! ## The filter-query encoder -/

namespace blockchain

open hexutil

/-- C5: `toMapInterface` returns an error exactly for the queries whose
`BlockHash` is set while `FromBlock` or `ToBlock` is non-empty, and it returns
a `nil` argument map exactly when it returns an error: a conflicting query is
never encoded with one of the fields dropped, and every other query is
encoded. -/
theorem toMapInterface_error_iff (q : cfxFilterQuery) :
    (q.toMapInterface.2 ≠ none ↔
      (q.BlockHash ≠ none ∧ (q.FromBlock ≠ "" ∨ q.ToBlock ≠ "")))
    ∧ (q.toMapInterface.1 = none ↔ q.toMapInterface.2 ≠ none) := by
  unfold cfxFilterQuery.toMapInterface
  cases hb : q.BlockHash with
  | none =>
    simp
  | some h =>
    by_cases hc : q.FromBlock ≠ "" ∨ q.ToBlock ≠ ""
    · simp only [hc, if_true]
      simp [hc]
    · simp only [hc, if_false]
      simp [hc]

/-- C6: for a query with `BlockHash` unset, `toMapInterface` returns no error
and a map with exactly the keys `address`, `topics`, `fromBlock`, `toBlock`;
`address` and `topics` hold the query's `Addresses` and `Topics`, `fromBlock`
is `"0x0"` for an empty `FromBlock` and `FromBlock` itself otherwise, `toBlock`
is `"latest"` for an empty `ToBlock` and `ToBlock` itself otherwise. (The
method has a value receiver and returns nothing but the map and the error: the
query is not modified.) -/
theorem toMapInterface_range (q : cfxFilterQuery) (hb : q.BlockHash = none) :
    q.toMapInterface.2 = none
    ∧ ∃ m : ArgMap, q.toMapInterface.1 = some m
      ∧ (∀ k, m.get k ≠ none ↔ k ∈ ["address", "topics", "fromBlock", "toBlock"])
      ∧ m.get "address" = some (ArgValue.addresses q.Addresses)
      ∧ m.get "topics" = some (ArgValue.topics q.Topics)
      ∧ m.get "fromBlock" = some (ArgValue.str (if q.FromBlock = "" then "0x0" else q.FromBlock))
      ∧ m.get "toBlock" = some (ArgValue.str (if q.ToBlock = "" then "latest" else q.ToBlock)) := by
  have hm : q.toMapInterface =
      (some [("address", ArgValue.addresses q.Addresses), ("topics", ArgValue.topics q.Topics),
        ("fromBlock", ArgValue.str (if q.FromBlock = "" then "0x0" else q.FromBlock)),
        ("toBlock", ArgValue.str (if q.ToBlock = "" then "latest" else q.ToBlock))], none) := by
    unfold cfxFilterQuery.toMapInterface
    rw [hb]
    by_cases h1 : q.FromBlock = "" <;> by_cases h2 : q.ToBlock = "" <;>
      simp [h1, h2, ArgMap.set]
  rw [hm]
  refine ⟨rfl, _, rfl, ?_, ?_, ?_, ?_, ?_⟩
  · intro k
    simp only [ArgMap.get, List.mem_cons, List.mem_singleton, List.not_mem_nil, or_false]
    by_cases k1 : "address" = k
    · simp [k1, eq_comm]
    · by_cases k2 : "topics" = k
      · simp [k1, k2, eq_comm]
      · by_cases k3 : "fromBlock" = k
        · simp [k1, k2, k3, eq_comm]
        · by_cases k4 : "toBlock" = k
          · simp [k1, k2, k3, k4, eq_comm]
          · have e1 : ¬ k = "address" := fun h => k1 h.symm
            have e2 : ¬ k = "topics" := fun h => k2 h.symm
            have e3 : ¬ k = "fromBlock" := fun h => k3 h.symm
            have e4 : ¬ k = "toBlock" := fun h => k4 h.symm
            simp [k1, k2, k3, k4, e1, e2, e3, e4]
  · simp [ArgMap.get]
  · simp [ArgMap.get]
  · simp [ArgMap.get]
  · simp [ArgMap.get]

/-- C6, at a concrete input: the query with nothing set is encoded with
`fromBlock = "0x0"` and `toBlock = "latest"`. -/
theorem toMapInterface_range_witness :
    (queryFrom "").BlockHash = none
    ∧ (queryFrom "").toMapInterface.2 = none
    ∧ (queryFrom "").toMapInterface.1 =
        some [("address", ArgValue.addresses none), ("topics", ArgValue.topics none),
          ("fromBlock", ArgValue.str "0x0"), ("toBlock", ArgValue.str "latest")] :=
  ⟨rfl, (toMapInterface_range (queryFrom "") rfl).1, rfl⟩

end blockchain

/-! ## Empty and malformed responses -/

namespace blockchain

open hexutil

/-- C7: for every connector, whatever its mode and cursor, and every payload
that decodes as an envelope whose result is the empty array, `ParseResponse`
returns the empty (`nil`) event list with `ok = true` and leaves the connector,
its cursor included, as it was. -/
theorem ParseResponse_empty_result (e : cfxManager) (data : Payload) (msg : jsonrpcMessage)
    (hd : unmarshalMessage data = .ok msg) (hres : msg.Result = some (.arr [])) :
    (e.ParseResponse data).1.1.toList = []
    ∧ (e.ParseResponse data).1.2 = true
    ∧ (e.ParseResponse data).2 = e := by
  have key : e.ParseResponse data = ((none, true), e) := by
    unfold cfxManager.ParseResponse
    by_cases hp : e.p = subscriber.RPC
    · simp only [hd, hres, unmarshalLogResponses, decodeLogResponses, if_pos hp, List.foldl_nil]
    · simp only [hd, if_neg hp]
  rw [key]
  exact ⟨rfl, rfl, rfl⟩

/-- C7, at concrete inputs: the envelope with result `[]` on a connector in RPC
mode with cursor `0x64`. -/
theorem ParseResponse_empty_result_witness :
    unmarshalMessage (envelope (.arr [])) =
      .ok (envelopeMessage (.arr []))
    ∧ ((rpcManager "0x64").ParseResponse (envelope (.arr []))).1.1.toList = []
    ∧ ((rpcManager "0x64").ParseResponse (envelope (.arr []))).1.2 = true
    ∧ ((rpcManager "0x64").ParseResponse (envelope (.arr []))).2 = rpcManager "0x64" :=
  ⟨rfl, ParseResponse_empty_result (rpcManager "0x64") (envelope (.arr []))
    (envelopeMessage (.arr [])) rfl rfl⟩

/-- C8, counterexample: a connector that is not in RPC mode (mode `0`) answers
`(nil, true)` to an envelope whose result is a string, not `(nil, false)`. -/
theorem ParseResponse_wrong_result_counterexample :
    (0 : SubscriberType) ≠ subscriber.RPC
    ∧ unmarshalMessage (envelope (.str "0x64")) =
      .ok (envelopeMessage (.str "0x64"))
    ∧ notRecordSequence (some (.str "0x64")) = true
    ∧ (cfxManager.ParseResponse { fq := queryFrom "", p := 0 }
        (envelope (.str "0x64"))).1 = (none, true) := by
  refine ⟨by decide, rfl, rfl, rfl⟩

/-- C8 (amended): `ParseResponse` returns `(nil, false)`, and changes nothing,
for every connector on every payload that does not decode as an envelope, and
for every connector in RPC mode on every payload that decodes as an envelope
whose result member does not hold a sequence of log records (absent, a string,
a number, a boolean, an object, or an array with an element that is not a
record). -/
theorem ParseResponse_failure (e : cfxManager) (data : Payload)
    (h : (unmarshalMessage data).toBool = false
      ∨ (e.p = subscriber.RPC
          ∧ ∃ msg, unmarshalMessage data = .ok msg ∧ notRecordSequence msg.Result = true)) :
    e.ParseResponse data = ((none, false), e) := by
  unfold cfxManager.ParseResponse
  rcases h with h | ⟨hp, msg, hd, hn⟩
  · cases hm : unmarshalMessage data with
    | error err => rfl
    | ok msg => simp [hm, Except.toBool] at h
  · simp only [hd, hp, if_true]
    cases hr : msg.Result with
    | none => rfl
    | some v =>
      rw [hr] at hn
      cases v with
      | null => simp [notRecordSequence] at hn
      | bool b => rfl
      | num lit => rfl
      | str s => rfl
      | obj kvs => rfl
      | arr xs =>
        simp only [notRecordSequence] at hn
        simp only [unmarshalLogResponses]
        cases hx : decodeLogResponses xs with
        | error err => rfl
        | ok rs => simp [hx, Except.toBool] at hn

/-- C8 (amended), at concrete inputs: a connector in RPC mode answers
`(nil, false)` to an envelope whose result is a string. -/
theorem ParseResponse_failure_witness :
    (rpcManager "0x64").ParseResponse (envelope (.str "0x64"))
      = ((none, false), rpcManager "0x64") :=
  ParseResponse_failure (rpcManager "0x64") (envelope (.str "0x64"))
    (Or.inr ⟨rfl, envelopeMessage (.str "0x64"), rfl, rfl⟩)

end blockchain

/-! ## The request builder `GetTriggerJson` -/

namespace blockchain

open hexutil

theorem sorted_range_members (a t f tb : JValue) :
    List.foldr insertMember []
        [("address", a), ("topics", t), ("fromBlock", f), ("toBlock", tb)]
      = [("address", a), ("fromBlock", f), ("toBlock", tb), ("topics", t)] := by
  rfl

theorem GetTriggerJson_state (e : cfxManager) :
    e.GetTriggerJson.2 =
      if e.p = subscriber.RPC ∧ e.fq.FromBlock = "" then
        { e with fq := { e.fq with FromBlock := "latest_state" } }
      else e := by
  unfold cfxManager.GetTriggerJson
  simp only [marshalFilter, marshalMessage]
  split <;> (try rfl)
  split <;> rfl

/-- C9: `GetTriggerJson` changes the query in one way only. In RPC mode with an
empty `FromBlock` it sets `FromBlock` to `"latest_state"`; otherwise `FromBlock`
is unchanged; and `BlockHash`, `ToBlock`, `Addresses`, `Topics` and the mode
are unchanged in every case, whether a request or `nil` is returned. -/
theorem GetTriggerJson_frame (e : cfxManager) :
    e.GetTriggerJson.2.fq.FromBlock =
      (if e.p = subscriber.RPC ∧ e.fq.FromBlock = "" then "latest_state" else e.fq.FromBlock)
    ∧ e.GetTriggerJson.2.fq.BlockHash = e.fq.BlockHash
    ∧ e.GetTriggerJson.2.fq.ToBlock = e.fq.ToBlock
    ∧ e.GetTriggerJson.2.fq.Addresses = e.fq.Addresses
    ∧ e.GetTriggerJson.2.fq.Topics = e.fq.Topics
    ∧ e.GetTriggerJson.2.p = e.p := by
  rw [GetTriggerJson_state]
  by_cases h : e.p = subscriber.RPC ∧ e.fq.FromBlock = ""
  · rw [if_pos h, if_pos h]
    exact ⟨rfl, rfl, rfl, rfl, rfl, rfl⟩
  · rw [if_neg h, if_neg h]
    exact ⟨rfl, rfl, rfl, rfl, rfl, rfl⟩

/-- C10: for a connector whose query has `BlockHash` unset, `GetTriggerJson`
returns a request (not `nil`): the envelope with `jsonrpc` `"2.0"`, `id` `1`,
method `"cfx_getLogs"` and `params` a list of exactly one element, the encoding
of the argument map that `toMapInterface` gives for the query as
`GetTriggerJson` leaves it. That element is the object with the members
`address`, `fromBlock`, `toBlock`, `topics`, where `fromBlock` is the cursor:
the query's `FromBlock` if non-empty, otherwise `"latest_state"` in RPC mode
and `"0x0"` in any other mode. -/
theorem GetTriggerJson_range (e : cfxManager) (hb : e.fq.BlockHash = none) :
    ∃ (m : ArgMap) (filterDoc : JValue),
      e.GetTriggerJson.2.fq.toMapInterface = (some m, none)
      ∧ marshalFilter (some m) = .ok filterDoc
      ∧ e.GetTriggerJson.1 =
          some (.obj [("jsonrpc", .str "2.0"), ("id", .num "1"),
            ("method", .str "cfx_getLogs"), ("params", .arr [filterDoc])])
      ∧ m.get "fromBlock" = some (ArgValue.str
          (if e.fq.FromBlock ≠ "" then e.fq.FromBlock
            else if e.p = subscriber.RPC then "latest_state" else "0x0"))
      ∧ filterDoc = .obj [("address", marshalArgValue (ArgValue.addresses e.fq.Addresses)),
          ("fromBlock", .str
            (if e.fq.FromBlock ≠ "" then e.fq.FromBlock
              else if e.p = subscriber.RPC then "latest_state" else "0x0")),
          ("toBlock", .str (if e.fq.ToBlock = "" then "latest" else e.fq.ToBlock)),
          ("topics", marshalArgValue (ArgValue.topics e.fq.Topics))] := by
  have hstate := GetTriggerJson_state e
  have hq : ∀ q : cfxFilterQuery, q.BlockHash = none →
      q.toMapInterface =
        (some [("address", ArgValue.addresses q.Addresses), ("topics", ArgValue.topics q.Topics),
          ("fromBlock", ArgValue.str (if q.FromBlock = "" then "0x0" else q.FromBlock)),
          ("toBlock", ArgValue.str (if q.ToBlock = "" then "latest" else q.ToBlock))], none) := by
    intro q hqb
    unfold cfxFilterQuery.toMapInterface
    rw [hqb]
    by_cases h1 : q.FromBlock = "" <;> by_cases h2 : q.ToBlock = "" <;>
      simp [h1, h2, ArgMap.set]
  by_cases h : e.p = subscriber.RPC ∧ e.fq.FromBlock = ""
  · have hcur : (if e.fq.FromBlock ≠ "" then e.fq.FromBlock
        else if e.p = subscriber.RPC then "latest_state" else "0x0") = "latest_state" := by
      simp [h.1, h.2]
    rw [hcur]
    rw [if_pos h] at hstate
    have hmap : cfxFilterQuery.toMapInterface { e.fq with FromBlock := "latest_state" } =
        (some [("address", ArgValue.addresses e.fq.Addresses),
          ("topics", ArgValue.topics e.fq.Topics),
          ("fromBlock", ArgValue.str "latest_state"),
          ("toBlock", ArgValue.str (if e.fq.ToBlock = "" then "latest" else e.fq.ToBlock))],
          none) := by
      have := hq { e.fq with FromBlock := "latest_state" } hb
      simpa using this
    refine ⟨[("address", ArgValue.addresses e.fq.Addresses),
          ("topics", ArgValue.topics e.fq.Topics),
          ("fromBlock", ArgValue.str "latest_state"),
          ("toBlock", ArgValue.str (if e.fq.ToBlock = "" then "latest" else e.fq.ToBlock))],
        .obj [("address", marshalArgValue (ArgValue.addresses e.fq.Addresses)),
          ("fromBlock", .str "latest_state"),
          ("toBlock", .str (if e.fq.ToBlock = "" then "latest" else e.fq.ToBlock)),
          ("topics", marshalArgValue (ArgValue.topics e.fq.Topics))], ?_, ?_, ?_, ?_, rfl⟩
    · rw [hstate]; exact hmap
    · rfl
    · unfold cfxManager.GetTriggerJson
      simp only [if_pos h, hmap, marshalFilter, marshalMessage]
      rfl
    · simp [ArgMap.get]
  · have hcur : (if e.fq.FromBlock ≠ "" then e.fq.FromBlock
        else if e.p = subscriber.RPC then "latest_state" else "0x0")
        = (if e.fq.FromBlock = "" then "0x0" else e.fq.FromBlock) := by
      by_cases h1 : e.fq.FromBlock = ""
      · have hp : ¬ e.p = subscriber.RPC := fun hp => h ⟨hp, h1⟩
        simp [h1, hp]
      · simp [h1]
    rw [hcur]
    rw [if_neg h] at hstate
    have hmap := hq e.fq hb
    refine ⟨[("address", ArgValue.addresses e.fq.Addresses),
          ("topics", ArgValue.topics e.fq.Topics),
          ("fromBlock", ArgValue.str (if e.fq.FromBlock = "" then "0x0" else e.fq.FromBlock)),
          ("toBlock", ArgValue.str (if e.fq.ToBlock = "" then "latest" else e.fq.ToBlock))],
        .obj [("address", marshalArgValue (ArgValue.addresses e.fq.Addresses)),
          ("fromBlock", .str (if e.fq.FromBlock = "" then "0x0" else e.fq.FromBlock)),
          ("toBlock", .str (if e.fq.ToBlock = "" then "latest" else e.fq.ToBlock)),
          ("topics", marshalArgValue (ArgValue.topics e.fq.Topics))], ?_, ?_, ?_, ?_, rfl⟩
    · rw [hstate]; exact hmap
    · rfl
    · unfold cfxManager.GetTriggerJson
      simp only [if_neg h, hmap, marshalFilter, marshalMessage]
      rfl
    · simp [ArgMap.get]

/-- C10, at a concrete input: the fresh connector in RPC mode asks for the logs
from `"latest_state"` to `"latest"`. -/
theorem GetTriggerJson_range_witness :
    (rpcManager "").fq.BlockHash = none
    ∧ (rpcManager "").GetTriggerJson.1 =
        some (.obj [("jsonrpc", .str "2.0"), ("id", .num "1"), ("method", .str "cfx_getLogs"),
          ("params", .arr [.obj [("address", .null), ("fromBlock", .str "latest_state"),
            ("toBlock", .str "latest"), ("topics", .null)]])]) := by
  obtain ⟨m, doc, _, _, h3, _, h5⟩ := GetTriggerJson_range (rpcManager "") rfl
  refine ⟨rfl, ?_⟩
  rw [h3, h5]
  rfl

end blockchain

/-! ## Block-hash queries and the probe request -/

namespace blockchain

open hexutil

theorem sorted_hash_members (a t h : JValue) :
    List.foldr insertMember [] [("address", a), ("topics", t), ("blockHash", h)]
      = [("address", a), ("blockHash", h), ("topics", t)] := by
  rfl

theorem toMapInterface_of_hash (q : cfxFilterQuery) (h : Hash)
    (hb : q.BlockHash = some h) (hf : q.FromBlock = "") (ht : q.ToBlock = "") :
    q.toMapInterface =
      (some [("address", ArgValue.addresses q.Addresses), ("topics", ArgValue.topics q.Topics),
        ("blockHash", ArgValue.hash h)], none) := by
  unfold cfxFilterQuery.toMapInterface
  rw [hb]
  simp [hf, ht, ArgMap.set]

theorem toMapInterface_of_conflict (q : cfxFilterQuery)
    (hb : q.BlockHash ≠ none) (hc : q.FromBlock ≠ "" ∨ q.ToBlock ≠ "") :
    q.toMapInterface = (none, some "cannot specify both BlockHash and FromBlock/ToBlock") := by
  unfold cfxFilterQuery.toMapInterface
  cases hq : q.BlockHash with
  | none => exact absurd hq hb
  | some h => simp [hc]

/-- C11, counterexample: a connector in RPC mode whose query has `BlockHash`
set and `FromBlock`, `ToBlock` empty gets no request from `GetTriggerJson`:
the RPC-mode defaulting makes `FromBlock` `"latest_state"` first, and the
encoder refuses the query. -/
theorem GetTriggerJson_hash_counterexample :
    (queryAt (common.HexToHash "0x1")).BlockHash = some (common.HexToHash "0x1")
    ∧ (queryAt (common.HexToHash "0x1")).FromBlock = ""
    ∧ (queryAt (common.HexToHash "0x1")).ToBlock = ""
    ∧ (cfxManager.GetTriggerJson
        { fq := queryAt (common.HexToHash "0x1"), p := subscriber.RPC }).1 = none
    ∧ (cfxManager.GetTriggerJson
        { fq := queryAt (common.HexToHash "0x1"), p := subscriber.RPC }).2.fq.FromBlock
        = "latest_state" := by
  refine ⟨rfl, rfl, rfl, rfl, rfl⟩

/-- C11 (amended): for a connector that is not in RPC mode, whose query has
`BlockHash` set and `FromBlock` and `ToBlock` both empty, `GetTriggerJson`
returns the `cfx_getLogs` request whose single parameter is the object with
the members `address`, `blockHash` and `topics` (no `fromBlock`, no `toBlock`),
`blockHash` being the hex text of the hash; the connector is left as it was. -/
theorem GetTriggerJson_hash (e : cfxManager) (h : Hash)
    (hp : e.p ≠ subscriber.RPC)
    (hb : e.fq.BlockHash = some h) (hf : e.fq.FromBlock = "") (ht : e.fq.ToBlock = "") :
    e.GetTriggerJson.1 =
      some (.obj [("jsonrpc", .str "2.0"), ("id", .num "1"), ("method", .str "cfx_getLogs"),
        ("params", .arr [.obj [
          ("address", marshalArgValue (ArgValue.addresses e.fq.Addresses)),
          ("blockHash", .str (hexutil.Encode h.bytes)),
          ("topics", marshalArgValue (ArgValue.topics e.fq.Topics))]])])
    ∧ e.GetTriggerJson.2 = e := by
  have hne : ¬ (e.p = subscriber.RPC ∧ e.fq.FromBlock = "") := fun hh => hp hh.1
  have hmap := toMapInterface_of_hash e.fq h hb hf ht
  constructor
  · unfold cfxManager.GetTriggerJson
    simp only [if_neg hne, hmap, marshalFilter, marshalMessage]
    rfl
  · rw [GetTriggerJson_state, if_neg hne]

/-- C11 (amended), at a concrete input: a connector in mode `0` with the block
hash `0x…01`. -/
theorem GetTriggerJson_hash_witness :
    (0 : SubscriberType) ≠ subscriber.RPC
    ∧ (cfxManager.GetTriggerJson { fq := queryAt (common.HexToHash "0x1"), p := 0 }).1 =
      some (.obj [("jsonrpc", .str "2.0"), ("id", .num "1"), ("method", .str "cfx_getLogs"),
        ("params", .arr [.obj [
          ("address", .null),
          ("blockHash",
            .str "0x0000000000000000000000000000000000000000000000000000000000000001"),
          ("topics", .null)]])]) :=
  ⟨by decide,
    (GetTriggerJson_hash { fq := queryAt (common.HexToHash "0x1"), p := 0 }
      (common.HexToHash "0x1") (by decide) rfl rfl rfl).1.trans (by rfl)⟩

/-- C14: `GetTriggerJson` returns `nil` exactly when the encoder refuses the
query as the RPC-mode defaulting leaves it, that is exactly when that query
has `BlockHash` set together with a non-empty `FromBlock` or `ToBlock`; in
terms of the query given, when `BlockHash` is set and the connector is in RPC
mode or `FromBlock` or `ToBlock` is non-empty. For every other query a request
is returned. -/
theorem GetTriggerJson_nil_iff (e : cfxManager) :
    (e.GetTriggerJson.1 = none ↔ e.GetTriggerJson.2.fq.toMapInterface.2 ≠ none)
    ∧ (e.GetTriggerJson.1 = none ↔
        (e.GetTriggerJson.2.fq.BlockHash ≠ none
          ∧ (e.GetTriggerJson.2.fq.FromBlock ≠ "" ∨ e.GetTriggerJson.2.fq.ToBlock ≠ "")))
    ∧ (e.GetTriggerJson.1 = none ↔
        (e.fq.BlockHash ≠ none
          ∧ (e.p = subscriber.RPC ∨ e.fq.FromBlock ≠ "" ∨ e.fq.ToBlock ≠ ""))) := by
  have key : e.GetTriggerJson.1 = none ↔ e.GetTriggerJson.2.fq.toMapInterface.2 ≠ none := by
    rw [GetTriggerJson_state]
    unfold cfxManager.GetTriggerJson
    simp only [marshalFilter, marshalMessage]
    split
    · rename_i a b hq
      simp [hq]
    · rename_i filter hq
      cases filter <;> simp [hq]
  have h2 := (toMapInterface_error_iff e.GetTriggerJson.2.fq).1
  refine ⟨key, key.trans h2, (key.trans h2).trans ?_⟩
  rw [GetTriggerJson_state]
  by_cases h : e.p = subscriber.RPC ∧ e.fq.FromBlock = ""
  · rw [if_pos h]
    simp [h.1]
  · rw [if_neg h]
    constructor
    · rintro ⟨hb, hc⟩
      exact ⟨hb, Or.inr hc⟩
    · rintro ⟨hb, hp | hc⟩
      · have : e.fq.FromBlock ≠ "" := fun hf => h ⟨hp, hf⟩
        exact ⟨hb, Or.inl this⟩
      · exact ⟨hb, hc⟩

/-- C15: for a query with `BlockHash` set and `FromBlock` and `ToBlock` both
empty, `toMapInterface` returns no error and a map with exactly the keys
`address`, `topics` and `blockHash`, bound to the query's `Addresses`, `Topics`
and the hash itself; there is no `fromBlock` and no `toBlock` key. -/
theorem toMapInterface_hash (q : cfxFilterQuery) (h : Hash)
    (hb : q.BlockHash = some h) (hf : q.FromBlock = "") (ht : q.ToBlock = "") :
    q.toMapInterface.2 = none
    ∧ ∃ m : ArgMap, q.toMapInterface.1 = some m
      ∧ (∀ k, m.get k ≠ none ↔ k ∈ ["address", "topics", "blockHash"])
      ∧ m.get "address" = some (ArgValue.addresses q.Addresses)
      ∧ m.get "topics" = some (ArgValue.topics q.Topics)
      ∧ m.get "blockHash" = some (ArgValue.hash h)
      ∧ m.get "fromBlock" = none
      ∧ m.get "toBlock" = none := by
  rw [toMapInterface_of_hash q h hb hf ht]
  refine ⟨rfl, _, rfl, ?_, ?_, ?_, ?_, ?_, ?_⟩
  · intro k
    simp only [ArgMap.get, List.mem_cons, List.mem_singleton, List.not_mem_nil, or_false]
    by_cases k1 : "address" = k
    · simp [k1, eq_comm]
    · by_cases k2 : "topics" = k
      · simp [k1, k2, eq_comm]
      · by_cases k3 : "blockHash" = k
        · simp [k1, k2, k3, eq_comm]
        · have e1 : ¬ k = "address" := fun h => k1 h.symm
          have e2 : ¬ k = "topics" := fun h => k2 h.symm
          have e3 : ¬ k = "blockHash" := fun h => k3 h.symm
          simp [k1, k2, k3, e1, e2, e3]
  · simp [ArgMap.get]
  · simp [ArgMap.get]
  · simp [ArgMap.get]
  · simp [ArgMap.get]
  · simp [ArgMap.get]

/-- C15, at a concrete input: the query with the block hash `0x…01` and
nothing else set. -/
theorem toMapInterface_hash_witness :
    (queryAt (common.HexToHash "0x1")).toMapInterface =
      (some [("address", ArgValue.addresses none), ("topics", ArgValue.topics none),
        ("blockHash", ArgValue.hash (common.HexToHash "0x1"))], none)
    ∧ (queryAt (common.HexToHash "0x1")).toMapInterface.2 = none :=
  ⟨rfl, (toMapInterface_hash (queryAt (common.HexToHash "0x1")) (common.HexToHash "0x1")
    rfl rfl rfl).1⟩

/-- C16: `GetTestJson` depends on the transport mode only. In RPC mode it
returns the envelope with `jsonrpc` `"2.0"`, `id` `1`, method
`"cfx_epochNumber"` and no `params` member, whatever the query; in every other
mode it returns `nil`; the connector, its query included, is left as it was. -/
theorem GetTestJson_probe (e : cfxManager) :
    e.GetTestJson.1 =
      (if e.p = subscriber.RPC then
        some (.obj [("jsonrpc", .str "2.0"), ("id", .num "1"),
          ("method", .str "cfx_epochNumber")])
       else none)
    ∧ e.GetTestJson.2 = e := by
  by_cases hp : e.p = subscriber.RPC
  · have key : e.GetTestJson =
        (some (.obj [("jsonrpc", .str "2.0"), ("id", .num "1"),
          ("method", .str "cfx_epochNumber")]), e) := by
      unfold cfxManager.GetTestJson
      rw [if_pos hp]
      rfl
    rw [key, if_pos hp]
    exact ⟨rfl, rfl⟩
  · have key : e.GetTestJson = (none, e) := by
      unfold cfxManager.GetTestJson
      rw [if_neg hp]
    rw [key, if_neg hp]
    exact ⟨rfl, rfl⟩

end blockchain

/-! ## The probe response `ParseTestResponse` -/

namespace blockchain

open hexutil

/-- C12: for a connector in RPC mode, whatever its cursor, and a payload that
decodes as an envelope whose result is the JSON string `s`, `ParseTestResponse`
returns no error and sets `FromBlock` to exactly `s`; the other fields of the
query and the mode are unchanged. -/
theorem ParseTestResponse_stores (e : cfxManager) (data : Payload) (msg : jsonrpcMessage)
    (s : String)
    (hp : e.p = subscriber.RPC)
    (hd : unmarshalMessage data = .ok msg) (hres : msg.Result = some (.str s)) :
    (e.ParseTestResponse data).1 = none
    ∧ (e.ParseTestResponse data).2.fq.FromBlock = s
    ∧ (e.ParseTestResponse data).2.fq.BlockHash = e.fq.BlockHash
    ∧ (e.ParseTestResponse data).2.fq.ToBlock = e.fq.ToBlock
    ∧ (e.ParseTestResponse data).2.fq.Addresses = e.fq.Addresses
    ∧ (e.ParseTestResponse data).2.fq.Topics = e.fq.Topics
    ∧ (e.ParseTestResponse data).2.p = e.p := by
  have key : e.ParseTestResponse data = (none, { e with fq := { e.fq with FromBlock := s } }) := by
    unfold cfxManager.ParseTestResponse
    rw [if_pos hp, hd]
    simp only [hres, unmarshalString, decodeString]
  rw [key]
  exact ⟨rfl, rfl, rfl, rfl, rfl, rfl, rfl⟩

/-- C12, at concrete inputs: the string `not a number` replaces the cursor
`0x64` as it is. -/
theorem ParseTestResponse_stores_witness :
    unmarshalMessage (envelope (.str "not a number")) = .ok (envelopeMessage (.str "not a number"))
    ∧ ((rpcManager "0x64").ParseTestResponse (envelope (.str "not a number"))).1 = none
    ∧ ((rpcManager "0x64").ParseTestResponse (envelope (.str "not a number"))).2.fq.FromBlock
        = "not a number" :=
  have h := ParseTestResponse_stores (rpcManager "0x64") (envelope (.str "not a number"))
    (envelopeMessage (.str "not a number")) "not a number" rfl rfl rfl
  ⟨rfl, h.1, h.2.1⟩

/-- C13: `ParseTestResponse` fails without effect and does nothing outside RPC
mode. For a connector in RPC mode and a payload that does not decode as an
envelope, or whose result member does not decode as a string (absent, a number,
a boolean, an array, an object), and for a connector in any other mode and
every payload, the connector is left as it was, cursor included; the returned
error is non-nil in the RPC case and `nil` in the other. -/
theorem ParseTestResponse_failure (e : cfxManager) (data : Payload)
    (h : (e.p = subscriber.RPC
          ∧ ((unmarshalMessage data).toBool = false
            ∨ ∃ msg, unmarshalMessage data = .ok msg ∧ notStringResult msg.Result = true))
      ∨ e.p ≠ subscriber.RPC) :
    (e.ParseTestResponse data).2 = e
    ∧ ((e.ParseTestResponse data).1 ≠ none ↔ e.p = subscriber.RPC) := by
  unfold cfxManager.ParseTestResponse
  rcases h with ⟨hp, hbad | ⟨msg, hd, hn⟩⟩ | hp
  · rw [if_pos hp]
    cases hm : unmarshalMessage data with
    | error err => simp [hp]
    | ok msg => simp [hm, Except.toBool] at hbad
  · rw [if_pos hp, hd]
    cases hr : msg.Result with
    | none => simp [unmarshalString, hr, hp]
    | some v =>
      rw [hr] at hn
      cases v with
      | null => simp [notStringResult] at hn
      | str s => simp [notStringResult] at hn
      | bool b => simp [unmarshalString, decodeString, hr, hp]
      | num lit => simp [unmarshalString, decodeString, hr, hp]
      | arr xs => simp [unmarshalString, decodeString, hr, hp]
      | obj kvs => simp [unmarshalString, decodeString, hr, hp]
  · rw [if_neg hp]
    simp [hp]

/-- C13, at concrete inputs: in RPC mode an envelope whose result is the number
`100` is an error and leaves the cursor `0x64`. -/
theorem ParseTestResponse_failure_witness :
    ((rpcManager "0x64").ParseTestResponse (envelope (.num "100"))).2 = rpcManager "0x64"
    ∧ (((rpcManager "0x64").ParseTestResponse (envelope (.num "100"))).1 ≠ none
        ↔ (rpcManager "0x64").p = subscriber.RPC) :=
  ParseTestResponse_failure (rpcManager "0x64") (envelope (.num "100"))
    (Or.inl ⟨rfl, Or.inr ⟨envelopeMessage (.num "100"), rfl, rfl⟩⟩)

end blockchain

/-! ## Events, and records that do not move the cursor -/

namespace blockchain

open hexutil

theorem marshalLogResponse_eventOf (r : cfxLogResponse) :
    marshalLogResponse r = .ok (eventOf r) := rfl

theorem loopBody_events (st : Slice Event × cfxFilterQuery) (evt : cfxLogResponse) :
    (ParseResponse.loopBody st evt).1 = st.1.append (eventOf evt) := by
  unfold ParseResponse.loopBody
  simp only [marshalLogResponse_eventOf]
  split
  · rfl
  · split
    · rfl
    · split <;> rfl

theorem loopBody_query_congr (st st2 : Slice Event × cfxFilterQuery) (evt : cfxLogResponse)
    (h : st.2 = st2.2) :
    (ParseResponse.loopBody st evt).2 = (ParseResponse.loopBody st2 evt).2 := by
  unfold ParseResponse.loopBody
  simp only [marshalLogResponse_eventOf, h]
  split
  · rfl
  · split
    · rfl
    · split <;> rfl

theorem loop_events (rs : List cfxLogResponse) :
    ∀ st : Slice Event × cfxFilterQuery,
      (rs.foldl ParseResponse.loopBody st).1 =
        rs.foldl (fun events r => events.append (eventOf r)) st.1 := by
  induction rs with
  | nil => intro st; rfl
  | cons r rs ih =>
    intro st
    rw [List.foldl_cons, List.foldl_cons, ih, loopBody_events]

theorem append_events_toList (rs : List cfxLogResponse) :
    ∀ events : Slice Event,
      (rs.foldl (fun events r => events.append (eventOf r)) events).toList =
        events.toList ++ rs.map eventOf := by
  induction rs with
  | nil => intro events; simp
  | cons r rs ih =>
    intro events
    rw [List.foldl_cons, ih]
    simp [Slice.append, Slice.toList]

theorem loop_query_congr (rs : List cfxLogResponse) :
    ∀ st st2 : Slice Event × cfxFilterQuery, st.2 = st2.2 →
      (rs.foldl ParseResponse.loopBody st).2 = (rs.foldl ParseResponse.loopBody st2).2 := by
  induction rs with
  | nil => intro st st2 h; exact h
  | cons r rs ih =>
    intro st st2 h
    rw [List.foldl_cons, List.foldl_cons]
    exact ih _ _ (loopBody_query_congr st st2 r h)

theorem loop_decodable_only (rs : List cfxLogResponse) :
    ∀ st : Slice Event × cfxFilterQuery,
      (rs.foldl ParseResponse.loopBody st).2 =
        ((rs.filter (fun r => (DecodeBig r.BlockNumber).isSome)).foldl
          ParseResponse.loopBody st).2 := by
  induction rs with
  | nil => intro st; rfl
  | cons r rs ih =>
    intro st
    rw [List.foldl_cons]
    cases hb : DecodeBig r.BlockNumber with
    | none =>
      have hf : List.filter (fun r => (DecodeBig r.BlockNumber).isSome) (r :: rs)
          = List.filter (fun r => (DecodeBig r.BlockNumber).isSome) rs := by
        simp [List.filter_cons, hb]
      rw [hf, ← ih st]
      exact loop_query_congr rs _ _ (loopBody_undecodable st r hb)
    | some b =>
      have hf : List.filter (fun r => (DecodeBig r.BlockNumber).isSome) (r :: rs)
          = r :: List.filter (fun r => (DecodeBig r.BlockNumber).isSome) rs := by
        simp [List.filter_cons, hb]
      rw [hf, List.foldl_cons]
      exact ih _

theorem hexValue_bad_digit (l : List Char) :
    ∀ (a : Nat) (c : Char), c ∈ l → decodeNibble c = none → hexValue l a = none := by
  induction l with
  | nil => intro a c hc; simp at hc
  | cons d ds ih =>
    intro a c hc hn
    unfold hexValue
    rcases List.mem_cons.mp hc with h | h
    · subst h
      simp [hn]
    · cases hd : decodeNibble d with
      | none => rfl
      | some v => exact ih _ c h hn

theorem checkNumber_eq_some (s : String) (raw : List Char) (h : checkNumber s = some raw) :
    raw = s.data.drop 2 := by
  unfold checkNumber at h
  simp only at h
  split_ifs at h
  injection h with h
  exact h.symm

theorem DecodeBig_no_marker (s : String) (h : has0xPrefix s.data = false) :
    DecodeBig s = none := by
  have hc : checkNumber s = none := by
    unfold checkNumber
    simp only
    split_ifs <;> rfl
  simp [DecodeBig, hc]

theorem DecodeBig_leading_zero (s : String) (h1 : (s.data.drop 2).length > 1)
    (h2 : (s.data.drop 2).head? = some '0') : DecodeBig s = none := by
  have hc : checkNumber s = none := by
    unfold checkNumber
    simp only
    split_ifs with a b c d <;> first | rfl | exact absurd ⟨h1, h2⟩ d
  simp [DecodeBig, hc]

theorem DecodeBig_bad_digit (s : String) (c : Char) (hc : c ∈ s.data.drop 2)
    (hn : decodeNibble c = none) : DecodeBig s = none := by
  unfold DecodeBig
  cases hk : checkNumber s with
  | none => rfl
  | some raw =>
    have hraw := checkNumber_eq_some s raw hk
    subst hraw
    simp only
    split_ifs
    · rfl
    · exact hexValue_bad_digit _ 0 c hc hn

theorem decodeStringElems_strs (ts : List String) :
    ∀ old : List String, decodeStringElems old (ts.map JValue.str) = .ok ts := by
  induction ts with
  | nil => intro old; rfl
  | cons t ts ih =>
    intro old
    simp only [List.map_cons, decodeStringElems, decodeString, ih]

theorem decodeLogResponse_members (li en bh th ti ad da : String) (ts : List String) :
    decodeLogResponse (.obj [("logIndex", .str li), ("epochNumber", .str en),
        ("blockHash", .str bh), ("transactionHash", .str th), ("transactionIndex", .str ti),
        ("address", .str ad), ("data", .str da), ("topics", .arr (ts.map JValue.str))])
      = .ok { LogIndex := li, BlockNumber := en, BlockHash := bh, TransactionHash := th,
              TransactionIndex := ti, Address := ad, Data := da, Topics := some ts } := by
  cases ts with
  | nil => rfl
  | cons t ts =>
    have h := decodeStringElems_strs (t :: ts) []
    rw [List.map_cons] at h
    have step : setLogField
        ({ LogIndex := li, BlockNumber := en, BlockHash := bh, TransactionHash := th,
           TransactionIndex := ti, Address := ad, Data := da, Topics := none }, [])
        "topics" (.arr (JValue.str t :: ts.map JValue.str))
        = .ok ({ LogIndex := li, BlockNumber := en, BlockHash := bh, TransactionHash := th,
                 TransactionIndex := ti, Address := ad, Data := da, Topics := some (t :: ts) },
               []) := by
      have hk : foldName "topics" = "TOPICS" := by decide
      have n1 : ¬ ("TOPICS" = "LOGINDEX") := by decide
      have n2 : ¬ ("TOPICS" = "EPOCHNUMBER") := by decide
      have n3 : ¬ ("TOPICS" = "BLOCKHASH") := by decide
      have n4 : ¬ ("TOPICS" = "TRANSACTIONHASH") := by decide
      have n5 : ¬ ("TOPICS" = "TRANSACTIONINDEX") := by decide
      have n6 : ¬ ("TOPICS" = "ADDRESS") := by decide
      have n7 : ¬ ("TOPICS" = "DATA") := by decide
      unfold setLogField
      simp only [hk, if_neg n1, if_neg n2, if_neg n3, if_neg n4, if_neg n5, if_neg n6,
        if_neg n7, if_true, decodeStringSlice, Slice.toList, List.nil_append, h]
      rfl
    show (match setLogFields (cfxLogResponse.zero, [])
        [("logIndex", .str li), ("epochNumber", .str en), ("blockHash", .str bh),
          ("transactionHash", .str th), ("transactionIndex", .str ti), ("address", .str ad),
          ("data", .str da), ("topics", .arr (JValue.str t :: ts.map JValue.str))] with
      | Except.error err => (Except.error err : Except String cfxLogResponse)
      | Except.ok st => Except.ok st.1) = _
    have seven : setLogFields (cfxLogResponse.zero, [])
        [("logIndex", .str li), ("epochNumber", .str en), ("blockHash", .str bh),
          ("transactionHash", .str th), ("transactionIndex", .str ti), ("address", .str ad),
          ("data", .str da), ("topics", .arr (JValue.str t :: ts.map JValue.str))]
        = setLogFields
            ({ LogIndex := li, BlockNumber := en, BlockHash := bh, TransactionHash := th,
               TransactionIndex := ti, Address := ad, Data := da, Topics := none }, [])
            [("topics", .arr (JValue.str t :: ts.map JValue.str))] := rfl
    rw [seven]
    simp only [setLogFields, step]

/-- C17: in RPC mode, for a response whose result decodes as the records `rs`,
`ParseResponse` returns `ok = true` and exactly one event per record, in the
order of the records, the `i`-th event being the re-serialization of the
`i`-th record: the object with the members `logIndex`, `epochNumber`,
`blockHash`, `transactionHash`, `transactionIndex`, `address`, `data`, `topics`
holding the fields of the record (`topics` is `null` for a `nil` slice). The
object of a record with these eight members decodes to the record of their
values, so such a record is emitted as it came. A record whose epoch number
does not decode is emitted like the others; for the cursor it counts for
nothing: the connector is left as by a response holding only the records whose
epoch number decodes. An epoch number does not decode when it is empty or has
no `0x` marker, when it has a leading zero digit, or when one of its digits is
not a hex digit. -/
theorem ParseResponse_events (e : cfxManager) (data : Payload) (rs : List cfxLogResponse)
    (hp : e.p = subscriber.RPC) (hr : responseRecords data = some rs) :
    (e.ParseResponse data).1.2 = true
    ∧ (e.ParseResponse data).1.1.toList = rs.map (fun r =>
        JValue.obj [("logIndex", .str r.LogIndex), ("epochNumber", .str r.BlockNumber),
          ("blockHash", .str r.BlockHash), ("transactionHash", .str r.TransactionHash),
          ("transactionIndex", .str r.TransactionIndex), ("address", .str r.Address),
          ("data", .str r.Data),
          ("topics", match r.Topics with
            | none => JValue.null
            | some ts => JValue.arr (ts.map JValue.str))])
    ∧ (e.ParseResponse data).1.1.len = rs.length
    ∧ (∀ (li en bh th ti ad da : String) (ts : List String),
        decodeLogResponse (.obj [("logIndex", .str li), ("epochNumber", .str en),
            ("blockHash", .str bh), ("transactionHash", .str th),
            ("transactionIndex", .str ti), ("address", .str ad), ("data", .str da),
            ("topics", .arr (ts.map JValue.str))])
          = .ok { LogIndex := li, BlockNumber := en, BlockHash := bh, TransactionHash := th,
                  TransactionIndex := ti, Address := ad, Data := da, Topics := some ts })
    ∧ (∀ data2, responseRecords data2
          = some (rs.filter (fun r => (DecodeBig r.BlockNumber).isSome)) →
        (e.ParseResponse data2).2 = (e.ParseResponse data).2)
    ∧ (∀ s : String, has0xPrefix s.data = false → DecodeBig s = none)
    ∧ (∀ s : String, (s.data.drop 2).length > 1 → (s.data.drop 2).head? = some '0' →
        DecodeBig s = none)
    ∧ (∀ (s : String) (c : Char), c ∈ s.data.drop 2 → decodeNibble c = none →
        DecodeBig s = none) := by
  have hdoc : ∀ r : cfxLogResponse, eventOf r =
      JValue.obj [("logIndex", .str r.LogIndex), ("epochNumber", .str r.BlockNumber),
        ("blockHash", .str r.BlockHash), ("transactionHash", .str r.TransactionHash),
        ("transactionIndex", .str r.TransactionIndex), ("address", .str r.Address),
        ("data", .str r.Data),
        ("topics", match r.Topics with
          | none => JValue.null
          | some ts => JValue.arr (ts.map JValue.str))] := by
    intro r
    cases ht : r.Topics <;> simp [eventOf, marshalLogResponse, marshalStringSlice, ht]
  have hev : (e.ParseResponse data).1.1.toList = rs.map eventOf := by
    rw [ParseResponse_of_records e data rs hp hr]
    show (rs.foldl ParseResponse.loopBody (none, e.fq)).1.toList = _
    rw [loop_events, append_events_toList]
    rfl
  refine ⟨?_, ?_, ?_, decodeLogResponse_members, ?_, ?_, ?_, ?_⟩
  · rw [ParseResponse_of_records e data rs hp hr]
  · rw [hev]
    exact List.map_congr_left (fun r _ => hdoc r)
  · rw [Slice.len, hev, List.length_map]
  · intro data2 h2
    rw [ParseResponse_of_records e data rs hp hr, ParseResponse_of_records e data2 _ hp h2]
    show cfxManager.mk _ _ = cfxManager.mk _ _
    rw [← loop_decodable_only rs (none, e.fq)]
  · exact DecodeBig_no_marker
  · exact DecodeBig_leading_zero
  · exact DecodeBig_bad_digit

/-- C17, at concrete inputs: of the records `0x5`, `0x09` (leading zero) and
`0x7` all three are emitted in order, each as the object it came as, and the
cursor `0x1` moves to `0x8` as for the response with `0x5` and `0x7` only. -/
theorem ParseResponse_events_witness :
    DecodeBig "0x09" = none
    ∧ ((rpcManager "0x1").ParseResponse
        (envelope (.arr [recordJson "0x5", recordJson "0x09", recordJson "0x7"]))).1.1.toList
        = [recordJson "0x5", recordJson "0x09", recordJson "0x7"]
    ∧ ((rpcManager "0x1").ParseResponse
        (envelope (.arr [recordJson "0x5", recordJson "0x7"]))).2
        = ((rpcManager "0x1").ParseResponse
            (envelope (.arr [recordJson "0x5", recordJson "0x09", recordJson "0x7"]))).2
    ∧ ((rpcManager "0x1").ParseResponse
        (envelope (.arr [recordJson "0x5", recordJson "0x7"]))).2.fq.FromBlock = "0x8" :=
  have h := ParseResponse_events (rpcManager "0x1")
    (envelope (.arr [recordJson "0x5", recordJson "0x09", recordJson "0x7"]))
    [recordOf "0x5", recordOf "0x09", recordOf "0x7"] rfl rfl
  ⟨by decide, h.2.1.trans rfl,
    h.2.2.2.2.1 (envelope (.arr [recordJson "0x5", recordJson "0x7"])) rfl,
    by decide⟩

/-- A record object that repeats its `topics` member: the second occurrence
shortens the slice to one element, the third extends it again over the
elements left in its backing array, which `null` leaves as they are. The
record decoded, and the event emitted for it, carry the topics `x`, `b`, `c`. -/
theorem ParseResponse_repeated_topics :
    ((rpcManager "").ParseResponse (envelope (.arr [.obj [("epochNumber", .str "0x1"),
        ("topics", .arr [.str "a", .str "b", .str "c"]),
        ("topics", .arr [.str "x"]),
        ("topics", .arr [.null, .null, .null])]]))).1
      = (some [.obj [("logIndex", .str ""), ("epochNumber", .str "0x1"), ("blockHash", .str ""),
          ("transactionHash", .str ""), ("transactionIndex", .str ""), ("address", .str ""),
          ("data", .str ""), ("topics", .arr [.str "x", .str "b", .str "c"])]], true) := by
  rfl

end blockchain

/-! ## Cursors that never advance, and repeated parsing -/

namespace blockchain

open hexutil

theorem ParseResponse_stuck (e : cfxManager) (data : Payload)
    (h1 : DecodeBig e.fq.FromBlock = none) (h2 : e.fq.FromBlock ≠ "latest")
    (h3 : e.fq.FromBlock ≠ "") : (e.ParseResponse data).2 = e := by
  by_cases hp : e.p = subscriber.RPC
  · cases hr : responseRecords data with
    | none => rw [ParseResponse_of_no_records e data hp hr]
    | some rs =>
      rw [ParseResponse_of_records e data rs hp hr]
      show cfxManager.mk _ _ = e
      rw [loop_stuck rs (none, e.fq) h1 h2 h3]
  · unfold cfxManager.ParseResponse
    cases hm : unmarshalMessage data with
    | error err => rfl
    | ok msg => simp only [if_neg hp]

theorem GetTriggerJson_stuck (e : cfxManager) (h3 : e.fq.FromBlock ≠ "") :
    e.GetTriggerJson.2 = e := by
  rw [GetTriggerJson_state, if_neg (fun h => h3 h.2)]

theorem runCalls_stuck (calls : List Call) :
    ∀ e : cfxManager, DecodeBig e.fq.FromBlock = none → e.fq.FromBlock ≠ "latest" →
      e.fq.FromBlock ≠ "" → runCalls e calls = e := by
  induction calls with
  | nil => intro e _ _ _; rfl
  | cons c calls ih =>
    intro e h1 h2 h3
    have hstep : Call.run e c = e := by
      cases c with
      | trigger => exact GetTriggerJson_stuck e h3
      | parse data => exact ParseResponse_stuck e data h1 h2 h3
    show runCalls (Call.run e c) calls = e
    rw [hstep]
    exact ih e h1 h2 h3

/-- C18: when `FromBlock` is neither `"latest"` nor `""` and does not decode
with `hexutil.DecodeBig`, `ParseResponse` leaves the connector, `FromBlock`
included, as it was, for every payload, and so does every sequence of
`GetTriggerJson` and `ParseResponse` calls. In particular, in RPC mode, after
`GetTriggerJson` has been called on an empty cursor, every later sequence of
such calls keeps `FromBlock` equal to `"latest_state"`. -/
theorem cursor_never_advances (e : cfxManager)
    (h1 : DecodeBig e.fq.FromBlock = none) (h2 : e.fq.FromBlock ≠ "latest")
    (h3 : e.fq.FromBlock ≠ "") :
    (∀ data, (e.ParseResponse data).2.fq.FromBlock = e.fq.FromBlock)
    ∧ (∀ calls, (runCalls e calls).fq.FromBlock = e.fq.FromBlock)
    ∧ (∀ (e0 : cfxManager) (calls : List Call), e0.p = subscriber.RPC → e0.fq.FromBlock = "" →
        e0.GetTriggerJson.2.fq.FromBlock = "latest_state"
        ∧ (runCalls e0.GetTriggerJson.2 calls).fq.FromBlock = "latest_state") := by
  refine ⟨?_, ?_, ?_⟩
  · intro data
    rw [ParseResponse_stuck e data h1 h2 h3]
  · intro calls
    rw [runCalls_stuck calls e h1 h2 h3]
  · intro e0 calls hp hf
    have hs : e0.GetTriggerJson.2.fq.FromBlock = "latest_state" := by
      rw [GetTriggerJson_state, if_pos ⟨hp, hf⟩]
    refine ⟨hs, ?_⟩
    rw [runCalls_stuck calls e0.GetTriggerJson.2 (by rw [hs]; decide) (by rw [hs]; decide)
      (by rw [hs]; decide)]
    exact hs

/-- C18, at concrete inputs: the decimal cursor `100` survives a response with
the record `0x64`, and a fresh connector in RPC mode that is asked for a
request, parses a response with the record `0x64` and is asked again still has
the cursor `latest_state`. -/
theorem cursor_never_advances_witness :
    DecodeBig (rpcManager "100").fq.FromBlock = none
    ∧ ((rpcManager "100").ParseResponse (envelope (.arr [recordJson "0x64"]))).2.fq.FromBlock
        = "100"
    ∧ (runCalls (rpcManager "").GetTriggerJson.2
        [Call.parse (envelope (.arr [recordJson "0x64"])), Call.trigger]).fq.FromBlock
        = "latest_state" :=
  have h := cursor_never_advances (rpcManager "100") (by decide) (by decide) (by decide)
  ⟨by decide, h.1 (envelope (.arr [recordJson "0x64"])),
    (h.2.2 (rpcManager "") [Call.parse (envelope (.arr [recordJson "0x64"])), Call.trigger]
      rfl rfl).2⟩

theorem loop_idempotent (rs : List cfxLogResponse) (st st2 : Slice Event × cfxFilterQuery)
    (h : st2.2 = (rs.foldl ParseResponse.loopBody st).2) :
    (rs.foldl ParseResponse.loopBody st2).2 = st2.2 := by
  -- the cursor after the first pass, by the kind of cursor before it
  by_cases hs : st.2.FromBlock = "latest" ∨ st.2.FromBlock = ""
  · rw [loop_sentinel rs st hs] at h
    cases hm : maxEpoch rs with
    | none =>
      rw [hm] at h
      have hs2 : st2.2.FromBlock = "latest" ∨ st2.2.FromBlock = "" := by rw [h]; exact hs
      rw [loop_sentinel rs st2 hs2, hm]
    | some M =>
      rw [hm] at h
      have hf : st2.2.FromBlock = EncodeBig (M + 1) := by rw [h]
      by_cases hbig : M + 1 < 2 ^ 256
      · rw [loop_number rs st2 (M + 1) (by rw [hf]; exact DecodeBig_EncodeBig _ hbig), hm]
        simp
      · exact loop_stuck rs st2 (by rw [hf]; exact DecodeBig_EncodeBig_big _ (by omega))
          (by rw [hf]; exact EncodeBig_ne_latest _) (by rw [hf]; exact EncodeBig_ne_empty _)
  · have n1 : st.2.FromBlock ≠ "latest" := fun x => hs (Or.inl x)
    have n2 : st.2.FromBlock ≠ "" := fun x => hs (Or.inr x)
    cases hc : DecodeBig st.2.FromBlock with
    | none =>
      rw [loop_stuck rs st hc n1 n2] at h
      exact loop_stuck rs st2 (by rw [h]; exact hc) (by rw [h]; exact n1) (by rw [h]; exact n2)
    | some c =>
      rw [loop_number rs st c hc] at h
      cases hm : maxEpoch rs with
      | none =>
        rw [hm] at h
        rw [loop_number rs st2 c (by rw [h]; exact hc), hm]
      | some M =>
        rw [hm] at h
        by_cases hlt : c < M + 1
        · simp only [hlt, if_true] at h
          have hf : st2.2.FromBlock = EncodeBig (M + 1) := by rw [h]
          by_cases hbig : M + 1 < 2 ^ 256
          · rw [loop_number rs st2 (M + 1) (by rw [hf]; exact DecodeBig_EncodeBig _ hbig), hm]
            simp
          · exact loop_stuck rs st2 (by rw [hf]; exact DecodeBig_EncodeBig_big _ (by omega))
              (by rw [hf]; exact EncodeBig_ne_latest _) (by rw [hf]; exact EncodeBig_ne_empty _)
        · simp only [hlt, if_false] at h
          rw [loop_number rs st2 c (by rw [h]; exact hc), hm]
          simp [hlt]

/-- C19: `ParseResponse` is idempotent. For every connector and every payload,
a second call with the same payload returns the same events and the same `ok`
flag as the first, and leaves the connector, `FromBlock` included, as the first
call left it. -/
theorem ParseResponse_idempotent (e : cfxManager) (data : Payload) :
    ((e.ParseResponse data).2.ParseResponse data).2.fq.FromBlock
        = (e.ParseResponse data).2.fq.FromBlock
    ∧ ((e.ParseResponse data).2.ParseResponse data).2 = (e.ParseResponse data).2
    ∧ ((e.ParseResponse data).2.ParseResponse data).1 = (e.ParseResponse data).1 := by
  have key : (e.ParseResponse data).2.ParseResponse data
      = ((e.ParseResponse data).1, (e.ParseResponse data).2) := by
    by_cases hp : e.p = subscriber.RPC
    · cases hr : responseRecords data with
      | none =>
        rw [ParseResponse_of_no_records e data hp hr]
        exact ParseResponse_of_no_records e data hp hr
      | some rs =>
        rw [ParseResponse_of_records e data rs hp hr]
        show cfxManager.ParseResponse
          { fq := (rs.foldl ParseResponse.loopBody (none, e.fq)).2, p := e.p } data = _
        rw [ParseResponse_of_records
          { fq := (rs.foldl ParseResponse.loopBody (none, e.fq)).2, p := e.p } data rs hp hr]
        have hq := loop_idempotent rs (none, e.fq)
          (none, (rs.foldl ParseResponse.loopBody (none, e.fq)).2) rfl
        have hev : (rs.foldl ParseResponse.loopBody
              (none, (rs.foldl ParseResponse.loopBody (none, e.fq)).2)).1
            = (rs.foldl ParseResponse.loopBody (none, e.fq)).1 := by
          rw [loop_events, loop_events]
        simp only [hq, hev]
    · unfold cfxManager.ParseResponse
      cases hm : unmarshalMessage data with
      | error err => simp only [hm]
      | ok msg => simp only [if_neg hp, hm]
  rw [key]
  exact ⟨rfl, rfl, rfl⟩

end blockchain

/-! ## The constructor `createCfxManager` -/

namespace blockchain

theorem foldl_append_toList {α β : Type} (f : α → β) (l : List α) :
    ∀ acc : Slice β,
      (l.foldl (fun acc a => acc.append (f a)) acc).toList = acc.toList ++ l.map f := by
  induction l with
  | nil => intro acc; simp
  | cons a l ih =>
    intro acc
    rw [List.foldl_cons, ih]
    simp [Slice.append, Slice.toList]

theorem length_lt_one_iff (value : String) : value.length < 1 ↔ value = "" := by
  constructor
  · intro h
    have h0 : value.data.length = 0 := by
      have : value.length = value.data.length := rfl
      omega
    have hd : value.data = [] := List.length_eq_zero.mp h0
    cases value with
    | mk data =>
      simp only at hd
      subst hd
      rfl
  · intro h
    subst h
    decide

theorem foldl_topics_toList (g : String → Hash) (l : List String) :
    ∀ acc : Slice Hash,
      (l.foldl (fun acc value => if value.length < 1 then acc else acc.append (g value))
          acc).toList
        = acc.toList ++ (l.filter (fun value => decide (value ≠ ""))).map g := by
  induction l with
  | nil => intro acc; simp
  | cons a l ih =>
    intro acc
    rw [List.foldl_cons, ih]
    by_cases ha : a = ""
    · have hl : a.length < 1 := (length_lt_one_iff a).mpr ha
      simp [hl, ha]
    · have hl : ¬ a.length < 1 := fun h => ha ((length_lt_one_iff a).mp h)
      simp [hl, ha, Slice.append, Slice.toList]

/-- C20: for every connection type and every subscription config,
`createCfxManager` returns a connector of that type whose query has `BlockHash`
unset, `FromBlock` and `ToBlock` empty, the addresses `HexToAddress a` of the
configured addresses in order, and a `Topics` sequence of length exactly one,
whose single alternative set holds the hashes `HexToHash value` of the
configured topic strings that are not empty, in order. With no (non-empty)
topic configured the single set is empty: one match-any position, not an empty
sequence. -/
theorem createCfxManager_query (p : SubscriberType) (config : store.Subscription) :
    (createCfxManager p config).p = p
    ∧ (createCfxManager p config).fq.BlockHash = none
    ∧ (createCfxManager p config).fq.FromBlock = ""
    ∧ (createCfxManager p config).fq.ToBlock = ""
    ∧ (createCfxManager p config).fq.Addresses.toList
        = config.Conflux.Addresses.toList.map common.HexToAddress
    ∧ (createCfxManager p config).fq.Topics.len = 1
    ∧ ∃ t : Slice Hash, (createCfxManager p config).fq.Topics = some [t]
        ∧ t.toList = (config.Conflux.Topics.toList.filter
            (fun value => decide (value ≠ ""))).map common.HexToHash := by
  refine ⟨rfl, rfl, rfl, rfl, ?_, rfl, _, rfl, ?_⟩
  · show (config.Conflux.Addresses.toList.foldl
      (fun (acc : Slice Address) a => acc.append (common.HexToAddress a)) none).toList = _
    rw [foldl_append_toList]
    rfl
  · rw [foldl_topics_toList]
    rfl

end blockchain
